import Mathlib

/-!
Verification of the CasparCG auto-sync controller (src/index.js).

The JavaScript source is shallowly embedded below: pure helpers become Lean
functions over Int / Rat, the mutable pairState map becomes an explicit
function from slot index to an optional pair, and every AMCP command written
to a connection becomes a constructor of the Cmd inductive.  Remote failures
are modelled by boolean oracles saying which awaited batch would throw.
-/

/-- JavaScript values that can appear in a slot's enabled field.  The source
only ever compares this field with false using strict equality, so the model
keeps the distinctions that matter there: undefined, booleans, numbers and
strings. -/
inductive JsVal where
  | undef : JsVal
  | jbool : Bool → JsVal
  | jnum : ℚ → JsVal
  | jstr : String → JsVal
deriving DecidableEq

/-- JavaScript whitespace characters recognised by the model of trim and
of parseInt (space, tab, newline, carriage return). -/
def isJsWsB (c : Char) : Bool :=
  c = ' ' || c = '\t' || c = '\n' || c = '\r'

/-- Model of String.prototype.trim: drop whitespace from both ends. -/
def trimChars (cs : List Char) : List Char :=
  ((cs.dropWhile isJsWsB).reverse.dropWhile isJsWsB).reverse

/-- Model of String.prototype.split with a one-character separator, on the
character list: "a:b".split gives ["a","b"], "" gives [""]. -/
def splitChars (sep : Char) : List Char → List (List Char)
  | [] => [[]]
  | c :: cs =>
    if c = sep then [] :: splitChars sep cs
    else
      match splitChars sep cs with
      | [] => [[c]]
      | g :: gs => (c :: g) :: gs

/-- Value of the maximal leading run of decimal digits, or none when the run
is empty (parseInt would give NaN). -/
def parseDigits (cs : List Char) : Option Int :=
  let ds := cs.takeWhile Char.isDigit
  if ds.isEmpty then none
  else some (Int.ofNat (ds.foldl (fun a c => a * 10 + (c.toNat - 48)) 0))

/-- Model of JavaScript parseInt(s, 10): skip leading whitespace, accept an
optional sign, then read the maximal run of digits, ignoring any trailing
characters; none models NaN. -/
def jsParseInt (s : List Char) : Option Int :=
  match s.dropWhile isJsWsB with
  | [] => none
  | c :: rest =>
    if c = '-' then (parseDigits rest).map (fun n => -n)
    else if c = '+' then parseDigits rest
    else parseDigits (c :: rest)

/-- The string-processing stage of timecodeToFrames from src/index.js: reject
an empty (falsy) value, trim, split on colons, require exactly four fields and
parseInt each field; none models the cases where the source returns 0 before
doing any arithmetic (wrong shape, or some field parsing to NaN). -/
def tcFields (tc : String) : Option (Int × Int × Int × Int) :=
  if tc = "" then none
  else
    match splitChars ':' (trimChars tc.data) with
    | [a, b, c, d] =>
      match jsParseInt a, jsParseInt b, jsParseInt c, jsParseInt d with
      | some hh, some mm, some ss, some ff => some (hh, mm, ss, ff)
      | _, _, _, _ => none
    | _ => none

/-- timecodeToFrames from src/index.js: on a parsed HH:MM:SS:FF input return
floor((hh*3600 + mm*60 + ss) * fps + ff), otherwise 0. -/
def timecodeToFrames (tc : String) (fps : ℚ) : Int :=
  match tcFields tc with
  | some (hh, mm, ss, ff) =>
    Int.floor ((((hh * 3600 + mm * 60 + ss : Int) : ℚ)) * fps + (ff : ℚ))
  | none => 0

/-- JavaScript truncation toward zero, as used by the % operator. -/
def jsTruncQ (q : ℚ) : Int :=
  if q < 0 then Int.ceil q else Int.floor q

/-- JavaScript remainder a % n on numbers: a - n * trunc(a / n). -/
def jsModQ (a n : ℚ) : ℚ :=
  a - n * ((jsTruncQ (a / n) : ℤ) : ℚ)

/-- targetFrame from src/index.js.  t0 is the millisecond timestamp captured
by startAll (none before any start; the source guard also treats the falsy
value 0 as unset), now is the current millisecond clock, fps and frames come
from the config.  Returns floor(((now - t0) / 1000 * fps) % frames), and 0
when t0 is unset. -/
def targetFrame (t0 : Option ℚ) (now fps frames : ℚ) : Int :=
  match t0 with
  | none => 0
  | some v =>
    if v = 0 then 0
    else Int.floor (jsModQ ((now - v) / 1000 * fps) frames)

/-- A configured playout slot, as stored in config.slots in src/index.js.
The enabled field keeps its JavaScript dynamism because the source tests it
with a strict comparison against false. -/
structure Slot where
  name : String
  host : String
  port : Int
  channel : Int
  baseLayer : Int
  clip : String
  timecode : String
  enabled : JsVal
deriving DecidableEq

/-- The global configuration fields the sync engine reads. -/
structure Config where
  fps : ℚ
  frames : ℚ
  driftToleranceFrames : Int
  resyncMode : String
  fadeFrames : ℚ
  slots : List Slot

/-- A slot's dual-layer pair as stored in the pairState map: the active and
standby layer numbers plus the baseLayer they were derived from. -/
structure Pair where
  active : Int
  standby : Int
  baseLayer : Int
deriving DecidableEq

/-- The mutable pairState map from src/index.js, slot index to pair. -/
def PairMap : Type := Nat → Option Pair

/-- Point update of the pairState map (pairState.set(i, p)). -/
def pmSet (pm : PairMap) (i : Nat) (p : Pair) : PairMap :=
  fun j => if j = i then some p else pm j

/-- getPair from src/index.js: return the stored pair for the slot unless it
is missing or its recorded baseLayer differs from the slot's current
baseLayer, in which case a canonical pair (baseLayer, baseLayer + 10) is
stored and returned. -/
def getPair (slot : Slot) (i : Nat) (pm : PairMap) : Pair × PairMap :=
  match pm i with
  | some pair =>
    if pair.baseLayer = slot.baseLayer then (pair, pm)
    else
      let p : Pair := ⟨slot.baseLayer, slot.baseLayer + 10, slot.baseLayer⟩
      (p, pmSet pm i p)
  | none =>
    let p : Pair := ⟨slot.baseLayer, slot.baseLayer + 10, slot.baseLayer⟩
    (p, pmSet pm i p)

/-- One AMCP command written to a connection.  The numeric arguments are kept
structured, so a value reaching the wire verbatim is the same Lean value. -/
inductive Cmd where
  | defer : Cmd
  | resume : Cmd
  | loadbg : Int → Int → String → ℚ → Cmd
  | pause : Int → Int → Cmd
  | play : Int → Int → Cmd
  | mixerOpacity : Int → Int → ℚ → ℚ → Bool → Cmd
  | mixerVolume : Int → Int → ℚ → ℚ → Bool → Cmd
deriving DecidableEq

/-- The effectiveness test the source repeats at the top of every per-slot
loop: a slot takes part unless enabled is strictly equal to false, or its
host or clip is empty (falsy). -/
def effS (s : Slot) : Prop :=
  s.enabled ≠ JsVal.jbool false ∧ s.host ≠ "" ∧ s.clip ≠ ""

instance (s : Slot) : Decidable (effS s) := by
  unfold effS; infer_instance

/-- The grouping key the source builds for each slot (template string
host:port) to share one connection per remote server. -/
def slotKey (s : Slot) : String :=
  s.host ++ ":" ++ toString s.port

/-- Append an item to the group with the given key, creating the group at the
end on first use; models insertion-ordered Map grouping in the source. -/
def addToGroups {α : Type} : List (String × List α) → String → α → List (String × List α)
  | [], k, a => [(k, [a])]
  | (k2, as) :: rest, k, a =>
    if k2 = k then (k2, as ++ [a]) :: rest
    else (k2, as) :: addToGroups rest k a

/-- Group a list of per-slot items by their slot's connection key, in
insertion order, as the grouped Map in the source does. -/
def groupItems {α : Type} (key : α → String) (items : List α) : List (String × List α) :=
  items.foldl (fun gs it => addToGroups gs (key it) it) []

/-- Flatten a list of command batches into wire order. -/
def flatCmds (xss : List (List Cmd)) : List Cmd :=
  xss.foldr (fun a b => a ++ b) []

/-- The per-slot gathering loop of preloadAll in src/index.js: walk the slots
with their indices, skip a slot when enabled is strictly false or host or
clip is empty, and otherwise record the slot with the pair obtained from
getPair (which may update the pairState map). -/
def preloadItems : List Slot → Nat → PairMap → (List (Nat × Slot × Pair)) × PairMap
  | [], _, pm => ([], pm)
  | s :: rest, i, pm =>
    if s.enabled = JsVal.jbool false then preloadItems rest (i + 1) pm
    else if s.host = "" ∨ s.clip = "" then preloadItems rest (i + 1) pm
    else
      let gp := getPair s i pm
      let r := preloadItems rest (i + 1) gp.2
      ((i, s, gp.1) :: r.1, r.2)

/-- The commands preloadAll issues for one slot inside its connection's
envelope: load, pause, hide and set volume for the active layer, then the
same for the standby layer (volume 1 active, 0 standby), in source order. -/
def preloadCmdsFor (it : Nat × Slot × Pair) : List Cmd :=
  [Cmd.loadbg it.2.1.channel it.2.2.active it.2.1.clip 0,
   Cmd.pause it.2.1.channel it.2.2.active,
   Cmd.mixerOpacity it.2.1.channel it.2.2.active 0 0 false,
   Cmd.mixerVolume it.2.1.channel it.2.2.active 1 0 false,
   Cmd.loadbg it.2.1.channel it.2.2.standby it.2.1.clip 0,
   Cmd.pause it.2.1.channel it.2.2.standby,
   Cmd.mixerOpacity it.2.1.channel it.2.2.standby 0 0 false,
   Cmd.mixerVolume it.2.1.channel it.2.2.standby 0 0 false]

/-- preloadAll from src/index.js: gather the effective slots, group them per
connection key in insertion order, and emit for every connection one
DEFER/RESUME envelope holding each grouped slot's preload commands in slot
order.  Returns the envelopes and the updated pairState map. -/
def preloadAll (cfg : Config) (pm : PairMap) : (List (List Cmd)) × PairMap :=
  let r := preloadItems cfg.slots 0 pm
  ((groupItems (fun it => slotKey it.2.1) r.1).map
     (fun g => Cmd.defer :: (g.2.foldr (fun it acc => preloadCmdsFor it ++ acc) []) ++ [Cmd.resume]),
   r.2)

/-- The unconditional pair reset at the top of startAll: every slot index is
set back to the canonical pair derived from its baseLayer. -/
def resetPairs : List Slot → Nat → PairMap → PairMap
  | [], _, pm => pm
  | s :: rest, i, pm =>
    resetPairs rest (i + 1) (pmSet pm i ⟨s.baseLayer, s.baseLayer + 10, s.baseLayer⟩)

/-- The per-slot gathering loop of startAll (same filter as preloadAll); the
recorded start frame comes from the slot's timecode at the config fps. -/
def startItems (fps : ℚ) : List Slot → Nat → PairMap → (List (Nat × Slot × Pair × Int)) × PairMap
  | [], _, pm => ([], pm)
  | s :: rest, i, pm =>
    if s.enabled = JsVal.jbool false then startItems fps rest (i + 1) pm
    else if s.host = "" ∨ s.clip = "" then startItems fps rest (i + 1) pm
    else
      let gp := getPair s i pm
      let r := startItems fps rest (i + 1) gp.2
      ((i, s, gp.1, timecodeToFrames s.timecode fps) :: r.1, r.2)

/-- The commands startAll issues for one slot inside its envelope: load and
pause both layers on the start frame, reset opacities and volumes, then play
the active layer and make it visible, in source order. -/
def startCmdsFor (it : Nat × Slot × Pair × Int) : List Cmd :=
  [Cmd.loadbg it.2.1.channel it.2.2.1.active it.2.1.clip ((it.2.2.2 : Int) : ℚ),
   Cmd.pause it.2.1.channel it.2.2.1.active,
   Cmd.loadbg it.2.1.channel it.2.2.1.standby it.2.1.clip ((it.2.2.2 : Int) : ℚ),
   Cmd.pause it.2.1.channel it.2.2.1.standby,
   Cmd.mixerOpacity it.2.1.channel it.2.2.1.active 0 0 false,
   Cmd.mixerOpacity it.2.1.channel it.2.2.1.standby 0 0 false,
   Cmd.mixerVolume it.2.1.channel it.2.2.1.active 1 0 false,
   Cmd.mixerVolume it.2.1.channel it.2.2.1.standby 0 0 false,
   Cmd.play it.2.1.channel it.2.2.1.active,
   Cmd.mixerOpacity it.2.1.channel it.2.2.1.active 1 0 false]

/-- startAll from src/index.js: record t0 := now, reset every slot's pair to
canonical, then gather effective slots, group per connection and emit one
envelope per connection.  Returns the new t0, the envelopes and the updated
pairState map. -/
def startAll (cfg : Config) (pm : PairMap) (nowMs : ℚ) :
    (Option ℚ) × (List (List Cmd)) × PairMap :=
  let pm1 := resetPairs cfg.slots 0 pm
  let r := startItems cfg.fps cfg.slots 0 pm1
  (some nowMs,
   (groupItems (fun it => slotKey it.2.1) r.1).map
     (fun g => Cmd.defer :: (g.2.foldr (fun it acc => startCmdsFor it ++ acc) []) ++ [Cmd.resume]),
   r.2)

/-- The server state the sync operations share: the config, the pairState
map and the global clock origin t0. -/
structure SyncState where
  config : Config
  pm : PairMap
  t0 : Option ℚ

/-- The per-slot gathering loop of pauseAll (same filter again). -/
def pauseItems : List Slot → Nat → PairMap → (List (Nat × Slot × Pair)) × PairMap
  | [], _, pm => ([], pm)
  | s :: rest, i, pm =>
    if s.enabled = JsVal.jbool false then pauseItems rest (i + 1) pm
    else if s.host = "" ∨ s.clip = "" then pauseItems rest (i + 1) pm
    else
      let gp := getPair s i pm
      let r := pauseItems rest (i + 1) gp.2
      ((i, s, gp.1) :: r.1, r.2)

/-- pauseAll from src/index.js: per effective slot, inside its connection's
envelope, pause the active and the standby layer.  The function reads t0
nowhere and writes it nowhere; the returned state carries the possibly
getPair-extended pairState map and the untouched t0. -/
def pauseAll (st : SyncState) : SyncState × List (List Cmd) :=
  let r := pauseItems st.config.slots 0 st.pm
  (⟨st.config, r.2, st.t0⟩,
   (groupItems (fun it => slotKey it.2.1) r.1).map
     (fun g => Cmd.defer ::
        (g.2.foldr (fun it acc =>
           [Cmd.pause it.2.1.channel it.2.2.active,
            Cmd.pause it.2.1.channel it.2.2.standby] ++ acc) []) ++ [Cmd.resume]))

/-- The batch loadAndPause in src/index.js sends for one layer: one
DEFER/RESUME envelope loading the clip at the given frame, pausing the layer
and making it invisible and silent. -/
def loadAndPauseCmds (ch layer : Int) (clip : String) (frame : ℚ) : List Cmd :=
  [Cmd.defer,
   Cmd.loadbg ch layer clip frame,
   Cmd.pause ch layer,
   Cmd.mixerOpacity ch layer 0 0 false,
   Cmd.mixerVolume ch layer 0 0 false,
   Cmd.resume]

/-- Batch A of cutTransition in src/index.js: play the standby layer, make
it visible and audible, and hide and mute the active layer, in one
envelope. -/
def cutBatchA (ch : Int) (pair : Pair) : List Cmd :=
  [Cmd.defer,
   Cmd.play ch pair.standby,
   Cmd.mixerOpacity ch pair.standby 1 0 false,
   Cmd.mixerVolume ch pair.standby 1 0 false,
   Cmd.mixerOpacity ch pair.active 0 0 false,
   Cmd.mixerVolume ch pair.active 0 0 false,
   Cmd.resume]

/-- Batch A of fadeTransition in src/index.js: the same swap with linear
ramps over fadeFrames frames. -/
def fadeBatchA (ch : Int) (pair : Pair) (fadeFrames : ℚ) : List Cmd :=
  [Cmd.defer,
   Cmd.play ch pair.standby,
   Cmd.mixerOpacity ch pair.standby 1 fadeFrames true,
   Cmd.mixerVolume ch pair.standby 1 fadeFrames true,
   Cmd.mixerOpacity ch pair.active 0 fadeFrames true,
   Cmd.mixerVolume ch pair.active 0 fadeFrames true,
   Cmd.resume]

/-- Batch B of both transitions: pause the old active layer in its own
envelope. -/
def transBatchB (ch : Int) (pair : Pair) : List Cmd :=
  [Cmd.defer, Cmd.pause ch pair.active, Cmd.resume]

/-- The swapped pair both transitions return: roles exchange, the recorded
baseLayer stays. -/
def swapPair (p : Pair) : Pair :=
  ⟨p.standby, p.active, p.baseLayer⟩

/-- The arm phase of resyncAll in src/index.js: for every effective slot, in
index order, preload its standby layer on the target frame through
loadAndPause.  Each awaited batch may fail, modelled by the armOk oracle; a
failure makes the whole operation throw at once, so the walk stops and the
failing index is reported.  Returns the pairState map after the getPair
calls done so far, the per-slot arm batches tagged by slot index, and the
failing index when there was one. -/
def resyncArm (tf : ℚ) (armOk : Nat → Bool) :
    List Slot → Nat → PairMap → PairMap × List (Nat × List Cmd) × Option Nat
  | [], _, pm => (pm, [], none)
  | s :: rest, i, pm =>
    if s.enabled = JsVal.jbool false then resyncArm tf armOk rest (i + 1) pm
    else if s.host = "" ∨ s.clip = "" then resyncArm tf armOk rest (i + 1) pm
    else
      let gp := getPair s i pm
      if armOk i then
        let r := resyncArm tf armOk rest (i + 1) gp.2
        (r.1, (i, loadAndPauseCmds s.channel gp.1.standby s.clip tf) :: r.2.1, r.2.2)
      else (gp.2, [], some i)

/-- The transition phase of resyncAll: for every effective slot in index
order run the cut or fade transition (batch A then batch B, each of which
may fail per the aOk / bOk oracles); only when both batches succeeded is the
slot's pair swapped in the pairState map, and a failure stops the walk and
reports the failing index. -/
def resyncTrans (mode : String) (fadeFrames : ℚ) (aOk bOk : Nat → Bool) :
    List Slot → Nat → PairMap → PairMap × List (Nat × List Cmd) × Option Nat
  | [], _, pm => (pm, [], none)
  | s :: rest, i, pm =>
    if s.enabled = JsVal.jbool false then resyncTrans mode fadeFrames aOk bOk rest (i + 1) pm
    else if s.host = "" ∨ s.clip = "" then resyncTrans mode fadeFrames aOk bOk rest (i + 1) pm
    else
      let gp := getPair s i pm
      let batchA := if mode = "fade" then fadeBatchA s.channel gp.1 fadeFrames
                    else cutBatchA s.channel gp.1
      if aOk i then
        if bOk i then
          let pm3 := pmSet gp.2 i (swapPair gp.1)
          let r := resyncTrans mode fadeFrames aOk bOk rest (i + 1) pm3
          (r.1, (i, batchA ++ transBatchB s.channel gp.1) :: r.2.1, r.2.2)
        else (gp.2, [(i, batchA)], some i)
      else (gp.2, [], some i)

/-- resyncAll from src/index.js: arm every effective slot's standby layer on
the target frame, then transition every effective slot.  Both walks are
sequential; the first failing awaited batch aborts the whole operation and
its error propagates, so the result carries at most one failing index. -/
def resyncAll (cfg : Config) (pm : PairMap) (mode : String) (tf : ℚ)
    (armOk aOk bOk : Nat → Bool) : PairMap × List (Nat × List Cmd) × Option Nat :=
  let arm := resyncArm tf armOk cfg.slots 0 pm
  match arm.2.2 with
  | some i => (arm.1, arm.2.1, some i)
  | none =>
    let tr := resyncTrans mode cfg.fadeFrames aOk bOk cfg.slots 0 arm.1
    (tr.1, arm.2.1 ++ tr.2.1, tr.2.2)

/-- One row of the status snapshot built by snapshotStatus in src/index.js,
restricted to the fields the sync engine computes. -/
structure Row where
  index : Nat
  channel : Int
  activeLayer : Int
  standbyLayer : Int
  currentFrame : Option Int
  targetF : Int
  drift : Option Int
deriving DecidableEq

/-- The row loop of snapshotStatus: per effective slot, read the pair through
getPair, ask the remote for the active layer's current frame (the curr
oracle models getCurrentFrame, none standing for an unparsable or failed
reply) and record drift = current - tf when current is non-null. -/
def snapshotRows (curr : Nat → Option Int) (tf : Int) :
    List Slot → Nat → PairMap → List Row × PairMap
  | [], _, pm => ([], pm)
  | s :: rest, i, pm =>
    if s.enabled = JsVal.jbool false then snapshotRows curr tf rest (i + 1) pm
    else if s.host = "" ∨ s.clip = "" then snapshotRows curr tf rest (i + 1) pm
    else
      let gp := getPair s i pm
      let current := curr i
      let drift := match current with
        | some c => some (c - tf)
        | none => none
      let r := snapshotRows curr tf rest (i + 1) gp.2
      (⟨i, s.channel, gp.1.active, gp.1.standby, current, tf, drift⟩ :: r.1, r.2)

/-- The trigger decision of the autosync tick in startAutosyncLoop: walk the
snapshot rows, skip null drifts, and flag a resync as soon as one row's
absolute drift exceeds the tolerance. -/
def needResync (rows : List Row) (tol : Int) : Bool :=
  rows.any (fun r =>
    match r.drift with
    | none => false
    | some d => decide (tol < |d|))

/-- A JavaScript number as the /api/resync body may carry it: a finite value
or one of the non-finite values Number.isFinite rejects. -/
inductive JsNum where
  | fin : ℚ → JsNum
  | nonfinite : JsNum

/-- The frame selection of the POST /api/resync handler: a finite body frame
is used as the target frame verbatim, anything else (absent field or a
non-finite number) falls back to targetFrame(). -/
def apiResyncTf (bodyFrame : Option JsNum) (t0 : Option ℚ) (now fps frames : ℚ) : ℚ :=
  match bodyFrame with
  | some (JsNum.fin q) => q
  | _ => ((targetFrame t0 now fps frames : Int) : ℚ)

/-- The pairState repair loop of the POST /api/config handler: after the
slots array is replaced, every slot whose stored pair is missing or carries
a stale baseLayer gets the canonical pair. -/
def configUpdatePairs : List Slot → Nat → PairMap → PairMap
  | [], _, pm => pm
  | s :: rest, i, pm =>
    match pm i with
    | some pair =>
      if pair.baseLayer = s.baseLayer then configUpdatePairs rest (i + 1) pm
      else configUpdatePairs rest (i + 1) (pmSet pm i ⟨s.baseLayer, s.baseLayer + 10, s.baseLayer⟩)
    | none => configUpdatePairs rest (i + 1) (pmSet pm i ⟨s.baseLayer, s.baseLayer + 10, s.baseLayer⟩)

/-- Two-digit decimal rendering of a field of an HH:MM:SS:FF timecode. -/
def pad2 (n : Nat) : List Char :=
  [Nat.digitChar (n / 10), Nat.digitChar (n % 10)]

/-- A well-formed timecode string built from four two-digit fields. -/
def tcString (hh mm ss ff : Nat) : String :=
  String.mk (pad2 hh ++ ':' :: (pad2 mm ++ ':' :: (pad2 ss ++ ':' :: pad2 ff)))

theorem digitChar_facts (d : Nat) (h : d < 10) :
    Char.isDigit (Nat.digitChar d) = true ∧ isJsWsB (Nat.digitChar d) = false ∧
    Nat.digitChar d ≠ ':' ∧ Nat.digitChar d ≠ '-' ∧ Nat.digitChar d ≠ '+' ∧
    (Nat.digitChar d).toNat - 48 = d := by
  interval_cases d <;> exact ⟨by decide, by decide, by decide, by decide, by decide, by decide⟩

theorem dropWhile_head_false (p : Char → Bool) (l : List Char)
    (h : ∀ c ∈ l, p c = false) : l.dropWhile p = l := by
  cases l with
  | nil => rfl
  | cons c cs => simp [List.dropWhile, h c (by simp)]

theorem trimChars_id (l : List Char) (h : ∀ c ∈ l, isJsWsB c = false) :
    trimChars l = l := by
  unfold trimChars
  rw [dropWhile_head_false _ _ h, dropWhile_head_false, List.reverse_reverse]
  intro c hc
  exact h c (List.mem_reverse.mp hc)

theorem splitChars_no_sep (sep : Char) :
    ∀ l : List Char, (∀ c ∈ l, c ≠ sep) → splitChars sep l = [l] := by
  intro l
  induction l with
  | nil => intro _; rfl
  | cons c cs ih =>
    intro h
    have hc : ¬(c = sep) := h c (by simp)
    simp only [splitChars, if_neg hc, ih (fun x hx => h x (by simp [hx]))]

theorem splitChars_append (sep : Char) :
    ∀ xs rest : List Char, (∀ c ∈ xs, c ≠ sep) →
      splitChars sep (xs ++ sep :: rest) = xs :: splitChars sep rest := by
  intro xs
  induction xs with
  | nil =>
    intro rest _
    simp [splitChars]
  | cons c cs ih =>
    intro rest h
    have hc : ¬(c = sep) := h c (by simp)
    have hr := ih rest (fun x hx => h x (by simp [hx]))
    simp only [List.cons_append, splitChars, if_neg hc, List.append_eq, hr]

theorem parseDigits_pad2 (n : Nat) (h : n < 100) :
    parseDigits (pad2 n) = some (Int.ofNat n) := by
  interval_cases n <;> decide

theorem jsParseInt_pad2 (n : Nat) (h : n < 100) :
    jsParseInt (pad2 n) = some (Int.ofNat n) := by
  interval_cases n <;> decide

theorem pad2_not_ws (n : Nat) (h : n < 100) : ∀ c ∈ pad2 n, isJsWsB c = false := by
  intro c hc
  simp only [pad2, List.mem_cons, List.mem_singleton, List.not_mem_nil, or_false] at hc
  rcases hc with hc | hc
  · exact hc ▸ (digitChar_facts (n / 10) (by omega)).2.1
  · exact hc ▸ (digitChar_facts (n % 10) (by omega)).2.1

theorem pad2_no_colon (n : Nat) (h : n < 100) : ∀ c ∈ pad2 n, c ≠ ':' := by
  intro c hc
  simp only [pad2, List.mem_cons, List.mem_singleton, List.not_mem_nil, or_false] at hc
  rcases hc with hc | hc
  · exact hc ▸ (digitChar_facts (n / 10) (by omega)).2.2.1
  · exact hc ▸ (digitChar_facts (n % 10) (by omega)).2.2.1

theorem data_mk (l : List Char) : (String.mk l).data = l := rfl

theorem tcString_fields (hh mm ss ff : Nat)
    (h1 : hh < 100) (h2 : mm < 100) (h3 : ss < 100) (h4 : ff < 100) :
    tcFields (tcString hh mm ss ff)
      = some (Int.ofNat hh, Int.ofNat mm, Int.ofNat ss, Int.ofNat ff) := by
  have hne : ¬(tcString hh mm ss ff = "") := by
    intro h
    have := congrArg String.data h
    simp only [tcString, data_mk] at this
    cases pad2 hh <;> simp_all [String.data]
  unfold tcFields
  rw [if_neg hne]
  have hdata : (tcString hh mm ss ff).data
      = pad2 hh ++ ':' :: (pad2 mm ++ ':' :: (pad2 ss ++ ':' :: pad2 ff)) := rfl
  rw [hdata]
  rw [trimChars_id]
  · rw [splitChars_append ':' _ _ (pad2_no_colon hh h1),
        splitChars_append ':' _ _ (pad2_no_colon mm h2),
        splitChars_append ':' _ _ (pad2_no_colon ss h3),
        splitChars_no_sep ':' _ (pad2_no_colon ff h4)]
    simp only [jsParseInt_pad2 hh h1, jsParseInt_pad2 mm h2,
      jsParseInt_pad2 ss h3, jsParseInt_pad2 ff h4]
  · intro c hc
    simp only [List.mem_append, List.mem_cons] at hc
    rcases hc with hc | hc | hc | hc | hc | hc | hc
    · exact pad2_not_ws hh h1 c hc
    · exact hc ▸ (by decide)
    · exact pad2_not_ws mm h2 c hc
    · exact hc ▸ (by decide)
    · exact pad2_not_ws ss h3 c hc
    · exact hc ▸ (by decide)
    · exact pad2_not_ws ff h4 c hc

theorem tft_of_fields_none (tc : String) (fps : ℚ) (h : tcFields tc = none) :
    timecodeToFrames tc fps = 0 := by
  unfold timecodeToFrames
  rw [h]

theorem tcFields_none_of_bad_shape (tc : String)
    (h : (splitChars ':' (trimChars tc.data)).length ≠ 4) : tcFields tc = none := by
  unfold tcFields
  by_cases he : tc = ""
  · rw [if_pos he]
  · rw [if_neg he]
    rcases hl : splitChars ':' (trimChars tc.data) with _ | ⟨a, _ | ⟨b, _ | ⟨c, _ | ⟨d, _ | ⟨e, rest⟩⟩⟩⟩⟩
    · rfl
    · rfl
    · rfl
    · rfl
    · exact absurd (by rw [hl]; rfl) h
    · rfl

theorem tcFields_none_of_nan (tc : String) (a b c d : List Char)
    (hl : splitChars ':' (trimChars tc.data) = [a, b, c, d])
    (h : jsParseInt a = none ∨ jsParseInt b = none ∨ jsParseInt c = none ∨ jsParseInt d = none) :
    tcFields tc = none := by
  unfold tcFields
  by_cases he : tc = ""
  · rw [if_pos he]
  · rw [if_neg he, hl]
    show (match jsParseInt a, jsParseInt b, jsParseInt c, jsParseInt d with
          | some hh, some mm, some ss, some ff => some (hh, mm, ss, ff)
          | _, _, _, _ => none) = none
    rcases ha : jsParseInt a with _ | va <;>
      rcases hb : jsParseInt b with _ | vb <;>
      rcases hc2 : jsParseInt c with _ | vc <;>
      rcases hd : jsParseInt d with _ | vd <;>
      first | rfl | simp_all

/-- C5 counterexample -/
theorem timecodeToFrames_negative_field_not_zero :
    timecodeToFrames "00:00:00:-5" 50 = -5 ∧ timecodeToFrames "00:00:00:-5" 50 ≠ 0 := by
  have h : tcFields "00:00:00:-5" = some (0, 0, 0, -5) := by decide
  constructor
  · norm_num [timecodeToFrames, h]
  · norm_num [timecodeToFrames, h]

/-- C5 amended -/
theorem timecodeToFrames_spec :
    (∀ hh mm ss ff : Nat, hh < 100 → mm < 100 → ss < 100 → ff < 100 → ∀ fps : ℚ,
       timecodeToFrames (tcString hh mm ss ff) fps
         = Int.floor (((hh * 3600 + mm * 60 + ss : Nat) : ℚ) * fps + (ff : ℚ)))
    ∧ timecodeToFrames "00:03:24:05" 50 = 10205
    ∧ timecodeToFrames "00:00:00:55" 50 = 55
    ∧ (∀ (tc : String) (fps : ℚ), (splitChars ':' (trimChars tc.data)).length ≠ 4 →
         timecodeToFrames tc fps = 0)
    ∧ (∀ (tc : String) (fps : ℚ) (a b c d : List Char),
         splitChars ':' (trimChars tc.data) = [a, b, c, d] →
         (jsParseInt a = none ∨ jsParseInt b = none ∨ jsParseInt c = none ∨ jsParseInt d = none) →
         timecodeToFrames tc fps = 0) := by
  refine ⟨?_, ?_, ?_, ?_, ?_⟩
  · intro hh mm ss ff h1 h2 h3 h4 fps
    unfold timecodeToFrames
    rw [tcString_fields hh mm ss ff h1 h2 h3 h4]
    congr 1
  · have h : tcFields "00:03:24:05" = some (0, 3, 24, 5) := by decide
    norm_num [timecodeToFrames, h]
  · have h : tcFields "00:00:00:55" = some (0, 0, 0, 55) := by decide
    norm_num [timecodeToFrames, h]
  · intro tc fps h
    exact tft_of_fields_none tc fps (tcFields_none_of_bad_shape tc h)
  · intro tc fps a b c d hl h
    exact tft_of_fields_none tc fps (tcFields_none_of_nan tc a b c d hl h)

/-- C5 witness -/
theorem timecodeToFrames_spec_witness :
    (0 : Nat) < 100 ∧ (3 : Nat) < 100 ∧ (24 : Nat) < 100 ∧ (5 : Nat) < 100 ∧
    timecodeToFrames (tcString 0 3 24 5) 50
      = Int.floor (((0 * 3600 + 3 * 60 + 24 : Nat) : ℚ) * 50 + ((5 : Nat) : ℚ)) ∧
    (splitChars ':' (trimChars ("0:00:00" : String).data)).length ≠ 4 ∧
    timecodeToFrames "0:00:00" 50 = 0 :=
  ⟨by decide, by decide, by decide, by decide,
   timecodeToFrames_spec.1 0 3 24 5 (by decide) (by decide) (by decide) (by decide) 50,
   by decide,
   timecodeToFrames_spec.2.2.2.1 "0:00:00" 50 (by decide)⟩

theorem jsModQ_bounds (a n : ℚ) (ha : 0 ≤ a) (hn : 0 < n) :
    0 ≤ jsModQ a n ∧ jsModQ a n < n := by
  unfold jsModQ jsTruncQ
  have hq : 0 ≤ a / n := div_nonneg ha hn.le
  rw [if_neg (not_lt.mpr hq)]
  have h1 : ((Int.floor (a / n) : ℤ) : ℚ) ≤ a / n := Int.floor_le _
  have h2 : a / n < ((Int.floor (a / n) : ℤ) : ℚ) + 1 := Int.lt_floor_add_one _
  have hna : n * (a / n) = a := by
    field_simp
  constructor
  · nlinarith
  · nlinarith

/-- C1, amended: with t0 set (and non-zero, which the falsy guard requires),
targetFrame returns floor of ((now - t0) / 1000 * fps) modulo frames, with no
per-slot startTimecode offset folded in, and the result lies in
[0, frames); with t0 unset it returns 0. -/
theorem targetFrame_formula_and_range (v now fps frames : ℚ)
    (hv : v ≠ 0) (hle : v ≤ now) (hfps : 0 ≤ fps) (hframes : 0 < frames) :
    targetFrame (some v) now fps frames
      = Int.floor (jsModQ ((now - v) / 1000 * fps) frames) ∧
    0 ≤ targetFrame (some v) now fps frames ∧
    ((targetFrame (some v) now fps frames : ℚ) < frames) ∧
    targetFrame none now fps frames = 0 := by
  have ha : 0 ≤ (now - v) / 1000 * fps :=
    mul_nonneg (div_nonneg (by linarith) (by norm_num)) hfps
  have hb := jsModQ_bounds ((now - v) / 1000 * fps) frames ha hframes
  have he : targetFrame (some v) now fps frames
      = Int.floor (jsModQ ((now - v) / 1000 * fps) frames) := by
    show (if v = 0 then (0 : ℤ)
          else Int.floor (jsModQ ((now - v) / 1000 * fps) frames)) = _
    rw [if_neg hv]
  refine ⟨he, ?_, ?_, rfl⟩
  · rw [he]
    exact Int.le_floor.mpr (by exact_mod_cast hb.1)
  · rw [he]
    calc ((Int.floor (jsModQ ((now - v) / 1000 * fps) frames) : ℤ) : ℚ)
        ≤ jsModQ ((now - v) / 1000 * fps) frames := Int.floor_le _
      _ < frames := hb.2

/-- C1 witness. -/
theorem targetFrame_formula_and_range_witness :
    (1000 : ℚ) ≠ 0 ∧ (1000 : ℚ) ≤ 3000 ∧ (0 : ℚ) ≤ 50 ∧ (0 : ℚ) < 30000 ∧
    (targetFrame (some 1000) 3000 50 30000
        = Int.floor (jsModQ ((3000 - 1000) / 1000 * 50) 30000) ∧
     0 ≤ targetFrame (some 1000) 3000 50 30000 ∧
     ((targetFrame (some 1000) 3000 50 30000 : ℚ) < 30000) ∧
     targetFrame none 3000 50 30000 = 0) :=
  ⟨by norm_num, by norm_num, by norm_num, by norm_num,
   targetFrame_formula_and_range 1000 3000 50 30000
     (by norm_num) (by norm_num) (by norm_num) (by norm_num)⟩

/-- C1 counterexample: at t0 = 1000 ms, now = 2000 ms, fps = 50,
frames = 30000 and a slot whose startTimecode is 00:00:00:05, the code
returns 50 while the claimed formula (which folds the timecode offset in)
gives 55. -/
theorem targetFrame_no_timecode_offset_cex :
    targetFrame (some 1000) 2000 50 30000 = 50 ∧
    Int.floor (jsModQ (((2000 : ℚ) - 1000) / 1000 * 50
        + ((timecodeToFrames "00:00:00:05" 50 : ℤ) : ℚ)) 30000) = 55 ∧
    (50 : ℤ) ≠ 55 := by
  have htc : timecodeToFrames "00:00:00:05" 50 = 5 := by
    have h : tcFields "00:00:00:05" = some (0, 0, 0, 5) := by decide
    norm_num [timecodeToFrames, h]
  refine ⟨?_, ?_, by decide⟩
  · norm_num [targetFrame, jsModQ, jsTruncQ]
  · rw [htc]
    norm_num [jsModQ, jsTruncQ]

/-- Recogniser for LOADBG commands, used to count them in a batch. -/
def isLoadbgB : Cmd → Bool
  | Cmd.loadbg _ _ _ _ => true
  | _ => false

/-- Recogniser for PAUSE commands. -/
def isPauseB : Cmd → Bool
  | Cmd.pause _ _ => true
  | _ => false

/-- Recogniser for MIXER commands (opacity or volume). -/
def isMixerB : Cmd → Bool
  | Cmd.mixerOpacity _ _ _ _ _ => true
  | Cmd.mixerVolume _ _ _ _ _ => true
  | _ => false

/-- A concrete slot on host h port 5250, channel 1, baseLayer 10, with an
enabled field left undefined. -/
def slotA : Slot := ⟨"s1", "h", 5250, 1, 10, "a.mov", "00:00:00:00", JsVal.undef⟩

/-- A concrete slot sharing slotA's connection, channel 1, baseLayer 20. -/
def slotB : Slot := ⟨"s2", "h", 5250, 1, 20, "b.mov", "00:00:00:00", JsVal.jbool true⟩

/-- A concrete slot sharing the same connection, channel 2, baseLayer 30. -/
def slotC : Slot := ⟨"s3", "h", 5250, 2, 30, "c.mov", "00:00:00:00", JsVal.undef⟩

/-- A three-slot configuration in which one connection serves channels
1, 1, 2 — the setup of scenarios S4 and S5. -/
def cfg3 : Config := ⟨50, 30000, 0, "cut", 2, [slotA, slotB, slotC]⟩

/-- The pairState map right after a startAll over cfg3: every slot holds its
canonical pair. -/
def pm3 : PairMap := fun i =>
  if i = 0 then some ⟨10, 20, 10⟩
  else if i = 1 then some ⟨20, 30, 20⟩
  else if i = 2 then some ⟨30, 40, 30⟩
  else none

/-- The oracle under which every remote batch succeeds. -/
def allOkB : Nat → Bool := fun _ => true

/-- The oracle of scenario S5: the arm batch of slot 2 fails (the remote
answers 501 ERROR), every other batch would succeed. -/
def armFail2 : Nat → Bool := fun i => !(i == 2)

/-- C6 counterexample -/
theorem preloadAll_s4_cex :
    (preloadAll cfg3 (fun _ => none)).1.length = 1 ∧
    ((preloadAll cfg3 (fun _ => none)).1.headD []).countP isLoadbgB = 6 ∧
    ¬(((preloadAll cfg3 (fun _ => none)).1.headD []).countP isLoadbgB = 9) := by
  decide

/-- C6 amended -/
theorem preloadAll_s4_envelope :
    (preloadAll cfg3 (fun _ => none)).1 =
      [[Cmd.defer,
        Cmd.loadbg 1 10 "a.mov" 0, Cmd.pause 1 10,
        Cmd.mixerOpacity 1 10 0 0 false, Cmd.mixerVolume 1 10 1 0 false,
        Cmd.loadbg 1 20 "a.mov" 0, Cmd.pause 1 20,
        Cmd.mixerOpacity 1 20 0 0 false, Cmd.mixerVolume 1 20 0 0 false,
        Cmd.loadbg 1 20 "b.mov" 0, Cmd.pause 1 20,
        Cmd.mixerOpacity 1 20 0 0 false, Cmd.mixerVolume 1 20 1 0 false,
        Cmd.loadbg 1 30 "b.mov" 0, Cmd.pause 1 30,
        Cmd.mixerOpacity 1 30 0 0 false, Cmd.mixerVolume 1 30 0 0 false,
        Cmd.loadbg 2 30 "c.mov" 0, Cmd.pause 2 30,
        Cmd.mixerOpacity 2 30 0 0 false, Cmd.mixerVolume 2 30 1 0 false,
        Cmd.loadbg 2 40 "c.mov" 0, Cmd.pause 2 40,
        Cmd.mixerOpacity 2 40 0 0 false, Cmd.mixerVolume 2 40 0 0 false,
        Cmd.resume]] ∧
    ((preloadAll cfg3 (fun _ => none)).1.headD []).countP isLoadbgB = 6 ∧
    ((preloadAll cfg3 (fun _ => none)).1.headD []).countP isPauseB = 6 ∧
    ((preloadAll cfg3 (fun _ => none)).1.headD []).countP isMixerB = 12 := by
  decide

theorem pmSet_same (pm : PairMap) (i : Nat) (p : Pair) : pmSet pm i p i = some p := by
  simp [pmSet]

theorem pmSet_other (pm : PairMap) (i k : Nat) (p : Pair) (h : k ≠ i) :
    pmSet pm i p k = pm k := by
  simp [pmSet, h]

/-- The pairState map holds, at every index covered by the slot list placed
at base index i, a pair whose recorded baseLayer matches that slot. -/
def AlignedAt (pm : PairMap) : List Slot → Nat → Prop
  | [], _ => True
  | s :: rest, i =>
    (∃ p, pm i = some p ∧ p.baseLayer = s.baseLayer) ∧ AlignedAt pm rest (i + 1)

theorem getPair_aligned (s : Slot) (i : Nat) (pm : PairMap) (p : Pair)
    (hp : pm i = some p) (hb : p.baseLayer = s.baseLayer) :
    getPair s i pm = (p, pm) := by
  unfold getPair
  rw [hp]
  simp [hb]

theorem alignedAt_of_agree (pm pm2 : PairMap) :
    ∀ (l : List Slot) (i : Nat), (∀ k, i ≤ k → pm2 k = pm k) →
      AlignedAt pm l i → AlignedAt pm2 l i := by
  intro l
  induction l with
  | nil => intro i _ _; trivial
  | cons s rest ih =>
    intro i hagree hal
    obtain ⟨⟨p, hp, hb⟩, htail⟩ := hal
    exact ⟨⟨p, (hagree i le_rfl).trans hp, hb⟩,
      ih (i + 1) (fun k hk => hagree k (by omega)) htail⟩

theorem resyncArm_pm (tf : ℚ) (armOk : Nat → Bool) :
    ∀ (l : List Slot) (i : Nat) (pm : PairMap), AlignedAt pm l i →
      (resyncArm tf armOk l i pm).1 = pm := by
  intro l
  induction l with
  | nil => intro i pm _; rfl
  | cons s rest ih =>
    intro i pm hal
    obtain ⟨⟨p, hp, hb⟩, htail⟩ := hal
    by_cases h1 : s.enabled = JsVal.jbool false
    · simp only [resyncArm, if_pos h1]
      exact ih (i + 1) pm htail
    · by_cases h2 : s.host = "" ∨ s.clip = ""
      · simp only [resyncArm, if_neg h1, if_pos h2]
        exact ih (i + 1) pm htail
      · simp only [resyncArm, if_neg h1, if_neg h2, getPair_aligned s i pm p hp hb]
        by_cases h3 : armOk i
        · simp only [if_pos h3]
          exact ih (i + 1) pm htail
        · simp only [if_neg h3]

theorem effS_of_guards (s : Slot) (h1 : ¬(s.enabled = JsVal.jbool false))
    (h2 : ¬(s.host = "" ∨ s.clip = "")) : effS s := by
  push_neg at h2
  exact ⟨h1, h2.1, h2.2⟩

theorem resyncArm_err_none (tf : ℚ) (armOk : Nat → Bool) :
    ∀ (l : List Slot) (i : Nat) (pm : PairMap),
      (∀ j, ∀ h : j < l.length, effS (l.get ⟨j, h⟩) → armOk (i + j) = true) →
      (resyncArm tf armOk l i pm).2.2 = none := by
  intro l
  induction l with
  | nil => intro i pm _; rfl
  | cons s rest ih =>
    intro i pm hok
    have hok2 : ∀ j, ∀ h : j < rest.length, effS (rest.get ⟨j, h⟩) → armOk (i + 1 + j) = true := by
      intro j h he
      have := hok (j + 1) (by simpa using Nat.succ_lt_succ h) (by simpa using he)
      simpa [Nat.add_assoc, Nat.add_comm 1 j] using this
    by_cases h1 : s.enabled = JsVal.jbool false
    · simp only [resyncArm, if_pos h1]
      exact ih (i + 1) pm hok2
    · by_cases h2 : s.host = "" ∨ s.clip = ""
      · simp only [resyncArm, if_neg h1, if_pos h2]
        exact ih (i + 1) pm hok2
      · have h3 : armOk i = true := by
          have := hok 0 (by simp) (by simpa using effS_of_guards s h1 h2)
          simpa using this
        simp only [resyncArm, if_neg h1, if_neg h2, h3, if_true]
        exact ih (i + 1) (getPair s i pm).2 hok2

theorem resyncArm_allok_of_err_none (tf : ℚ) (armOk : Nat → Bool) :
    ∀ (l : List Slot) (i : Nat) (pm : PairMap),
      (resyncArm tf armOk l i pm).2.2 = none →
      ∀ j, ∀ h : j < l.length, effS (l.get ⟨j, h⟩) → armOk (i + j) = true := by
  intro l
  induction l with
  | nil => intro i pm _ j h; exact absurd h (by simp)
  | cons s rest ih =>
    intro i pm herr j h he
    by_cases h1 : s.enabled = JsVal.jbool false
    · simp only [resyncArm, if_pos h1] at herr
      match j with
      | 0 =>
        exact absurd (by simpa using he) (by simp [effS, h1])
      | j + 1 =>
        have := ih (i + 1) pm herr j (by simpa using Nat.lt_of_succ_lt_succ h) (by simpa using he)
        simpa [Nat.add_assoc, Nat.add_comm 1 j] using this
    · by_cases h2 : s.host = "" ∨ s.clip = ""
      · simp only [resyncArm, if_neg h1, if_pos h2] at herr
        match j with
        | 0 =>
          have heS : effS s := by simpa using he
          rcases h2 with h2 | h2
          · exact absurd h2 heS.2.1
          · exact absurd h2 heS.2.2
        | j + 1 =>
          have := ih (i + 1) pm herr j (by simpa using Nat.lt_of_succ_lt_succ h) (by simpa using he)
          simpa [Nat.add_assoc, Nat.add_comm 1 j] using this
      · by_cases h3 : armOk i = true
        · simp only [resyncArm, if_neg h1, if_neg h2, h3, if_true] at herr
          match j with
          | 0 => simpa using h3
          | j + 1 =>
            have := ih (i + 1) (getPair s i pm).2 herr j
              (by simpa using Nat.lt_of_succ_lt_succ h) (by simpa using he)
            simpa [Nat.add_assoc, Nat.add_comm 1 j] using this
        · have h3f : armOk i = false := by simpa using h3
          simp only [resyncArm, if_neg h1, if_neg h2, h3f, Bool.false_eq_true, if_false] at herr
          simp at herr

theorem resyncArm_err_first (tf : ℚ) (armOk : Nat → Bool) :
    ∀ (l : List Slot) (i : Nat) (pm : PairMap) (k : Nat) (hk : k < l.length),
      effS (l.get ⟨k, hk⟩) → armOk (i + k) = false →
      (∀ j, j < k → ∀ h : j < l.length, effS (l.get ⟨j, h⟩) → armOk (i + j) = true) →
      (resyncArm tf armOk l i pm).2.2 = some (i + k) := by
  intro l
  induction l with
  | nil => intro i pm k hk; exact absurd hk (by simp)
  | cons s rest ih =>
    intro i pm k hk he hf hbefore
    by_cases h1 : s.enabled = JsVal.jbool false
    · simp only [resyncArm, if_pos h1]
      match k with
      | 0 => exact absurd (by simpa using he) (by simp [effS, h1])
      | k + 1 =>
        have := ih (i + 1) pm k (by simpa using Nat.lt_of_succ_lt_succ hk)
          (by simpa using he)
          (by rw [show i + 1 + k = i + (k + 1) by omega]; exact hf)
          (by
            intro j hj h hje
            have := hbefore (j + 1) (by omega) (by simpa using Nat.succ_lt_succ h) (by simpa using hje)
            simpa [Nat.add_assoc, Nat.add_comm 1 j] using this)
        rw [this]
        congr 1
        omega
    · by_cases h2 : s.host = "" ∨ s.clip = ""
      · simp only [resyncArm, if_neg h1, if_pos h2]
        match k with
        | 0 =>
          have heS : effS s := by simpa using he
          rcases h2 with h2 | h2
          · exact absurd h2 heS.2.1
          · exact absurd h2 heS.2.2
        | k + 1 =>
          have := ih (i + 1) pm k (by simpa using Nat.lt_of_succ_lt_succ hk)
            (by simpa using he)
            (by rw [show i + 1 + k = i + (k + 1) by omega]; exact hf)
            (by
              intro j hj h hje
              have := hbefore (j + 1) (by omega) (by simpa using Nat.succ_lt_succ h) (by simpa using hje)
              simpa [Nat.add_assoc, Nat.add_comm 1 j] using this)
          rw [this]
          congr 1
          omega
      · match k with
        | 0 =>
          have hf0 : armOk i = false := by simpa using hf
          simp only [resyncArm, if_neg h1, if_neg h2, hf0]
          simp
        | k + 1 =>
          have h3 : armOk i = true := by
            have := hbefore 0 (by omega) (by simp) (by simpa using effS_of_guards s h1 h2)
            simpa using this
          simp only [resyncArm, if_neg h1, if_neg h2, h3, if_true]
          have := ih (i + 1) (getPair s i pm).2 k (by simpa using Nat.lt_of_succ_lt_succ hk)
            (by simpa using he)
            (by rw [show i + 1 + k = i + (k + 1) by omega]; exact hf)
            (by
              intro j hj h hje
              have := hbefore (j + 1) (by omega) (by simpa using Nat.succ_lt_succ h) (by simpa using hje)
              simpa [Nat.add_assoc, Nat.add_comm 1 j] using this)
          rw [this]
          congr 1
          omega

/-- The transition batches of all effective slots up to relative position jj
(inclusive) would succeed. -/
def transOkThrough (aOk bOk : Nat → Bool) (l : List Slot) (i jj : Nat) : Prop :=
  ∀ j2, j2 ≤ jj → ∀ h : j2 < l.length, effS (l.get ⟨j2, h⟩) →
    aOk (i + j2) = true ∧ bOk (i + j2) = true

theorem transOkThrough_zero (aOk bOk : Nat → Bool) (s : Slot) (rest : List Slot) (i : Nat) :
    transOkThrough aOk bOk (s :: rest) i 0 ↔ (effS s → aOk i = true ∧ bOk i = true) := by
  constructor
  · intro h he
    have := h 0 le_rfl (by simp) (by simpa using he)
    simpa using this
  · intro h j2 hj2 hlt he
    have hj0 : j2 = 0 := Nat.le_zero.mp hj2
    subst hj0
    simpa using h (by simpa using he)

theorem transOkThrough_succ (aOk bOk : Nat → Bool) (s : Slot) (rest : List Slot) (i jj : Nat) :
    transOkThrough aOk bOk (s :: rest) i (jj + 1) ↔
      ((effS s → aOk i = true ∧ bOk i = true) ∧ transOkThrough aOk bOk rest (i + 1) jj) := by
  constructor
  · intro h
    constructor
    · intro he
      have := h 0 (by omega) (by simp) (by simpa using he)
      simpa using this
    · intro j2 hj2 hlt he
      have := h (j2 + 1) (by omega) (by simpa using Nat.succ_lt_succ hlt) (by simpa using he)
      simpa [Nat.add_assoc, Nat.add_comm 1 j2] using this
  · intro h j2 hj2 hlt he
    match j2 with
    | 0 => simpa using h.1 (by simpa using he)
    | j2 + 1 =>
      have := h.2 j2 (by omega) (by simpa using Nat.lt_of_succ_lt_succ hlt) (by simpa using he)
      simpa [Nat.add_assoc, Nat.add_comm 1 j2] using this

theorem resyncTrans_outside (mode : String) (ff : ℚ) (aOk bOk : Nat → Bool) :
    ∀ (l : List Slot) (i : Nat) (pm : PairMap), AlignedAt pm l i →
      ∀ k, k < i ∨ i + l.length ≤ k →
        (resyncTrans mode ff aOk bOk l i pm).1 k = pm k := by
  intro l
  induction l with
  | nil => intro i pm _ k _; rfl
  | cons s rest ih =>
    intro i pm hal k hk
    obtain ⟨⟨p, hp, hb⟩, htail⟩ := hal
    have hk2 : k < i + 1 ∨ i + 1 + rest.length ≤ k := by
      rcases hk with hk | hk
      · left; omega
      · right; simp at hk; omega
    have hkni : k ≠ i := by
      rcases hk with hk | hk
      · omega
      · simp at hk; omega
    by_cases h1 : s.enabled = JsVal.jbool false
    · simp only [resyncTrans, if_pos h1]
      exact ih (i + 1) pm htail k hk2
    · by_cases h2 : s.host = "" ∨ s.clip = ""
      · simp only [resyncTrans, if_neg h1, if_pos h2]
        exact ih (i + 1) pm htail k hk2
      · simp only [resyncTrans, if_neg h1, if_neg h2, getPair_aligned s i pm p hp hb]
        by_cases h3 : aOk i = true
        · by_cases h4 : bOk i = true
          · simp only [h3, h4, if_true]
            have hal3 : AlignedAt (pmSet pm i (swapPair p)) rest (i + 1) :=
              alignedAt_of_agree pm (pmSet pm i (swapPair p)) rest (i + 1)
                (fun m hm => pmSet_other pm i m (swapPair p) (by omega)) htail
            rw [ih (i + 1) (pmSet pm i (swapPair p)) hal3 k hk2]
            exact pmSet_other pm i k (swapPair p) hkni
          · simp only [h3, h4, if_true]
            rfl
        · simp only [h3]
          rfl

theorem resyncTrans_at (mode : String) (ff : ℚ) (aOk bOk : Nat → Bool) :
    ∀ (l : List Slot) (i : Nat) (pm : PairMap), AlignedAt pm l i →
      ∀ jj, ∀ h : jj < l.length, ∀ p : Pair, pm (i + jj) = some p →
        (effS (l.get ⟨jj, h⟩) → transOkThrough aOk bOk l i jj →
           (resyncTrans mode ff aOk bOk l i pm).1 (i + jj) = some (swapPair p)) ∧
        (¬(effS (l.get ⟨jj, h⟩) ∧ transOkThrough aOk bOk l i jj) →
           (resyncTrans mode ff aOk bOk l i pm).1 (i + jj) = some p) := by
  intro l
  induction l with
  | nil => intro i pm _ jj h; exact absurd h (by simp)
  | cons s rest ih =>
    intro i pm hal jj h p hp2
    obtain ⟨⟨p0, hp0, hb0⟩, htail⟩ := hal
    by_cases h1 : s.enabled = JsVal.jbool false
    · have hne : ¬ effS s := fun he => he.1 h1
      simp only [resyncTrans, if_pos h1]
      match jj with
      | 0 =>
        constructor
        · intro he _
          exact absurd (by simpa using he) hne
        · intro _
          rw [resyncTrans_outside mode ff aOk bOk rest (i + 1) pm htail (i + 0) (by omega)]
          exact hp2
      | j + 1 =>
        have hiff : transOkThrough aOk bOk (s :: rest) i (j + 1) ↔
            transOkThrough aOk bOk rest (i + 1) j := by
          rw [transOkThrough_succ]
          constructor
          · exact fun hc => hc.2
          · exact fun hr => ⟨fun he => absurd he hne, hr⟩
        have hp3 : pm (i + 1 + j) = some p := by
          rw [show i + 1 + j = i + (j + 1) by omega]
          exact hp2
        have := ih (i + 1) pm htail j (by simpa using Nat.lt_of_succ_lt_succ h) p hp3
        rw [show i + (j + 1) = i + 1 + j by omega]
        constructor
        · intro he htr
          exact this.1 (by simpa using he) (hiff.mp htr)
        · intro hn
          exact this.2 (by
            intro hcon
            exact hn ⟨by simpa using hcon.1, hiff.mpr hcon.2⟩)
    · by_cases h2 : s.host = "" ∨ s.clip = ""
      · have hne : ¬ effS s := by
          intro he
          rcases h2 with h2 | h2
          · exact he.2.1 h2
          · exact he.2.2 h2
        simp only [resyncTrans, if_neg h1, if_pos h2]
        match jj with
        | 0 =>
          constructor
          · intro he _
            exact absurd (by simpa using he) hne
          · intro _
            rw [resyncTrans_outside mode ff aOk bOk rest (i + 1) pm htail (i + 0) (by omega)]
            exact hp2
        | j + 1 =>
          have hiff : transOkThrough aOk bOk (s :: rest) i (j + 1) ↔
              transOkThrough aOk bOk rest (i + 1) j := by
            rw [transOkThrough_succ]
            constructor
            · exact fun hc => hc.2
            · exact fun hr => ⟨fun he => absurd he hne, hr⟩
          have hp3 : pm (i + 1 + j) = some p := by
            rw [show i + 1 + j = i + (j + 1) by omega]
            exact hp2
          have := ih (i + 1) pm htail j (by simpa using Nat.lt_of_succ_lt_succ h) p hp3
          rw [show i + (j + 1) = i + 1 + j by omega]
          constructor
          · intro he htr
            exact this.1 (by simpa using he) (hiff.mp htr)
          · intro hn
            exact this.2 (by
              intro hcon
              exact hn ⟨by simpa using hcon.1, hiff.mpr hcon.2⟩)
      · have heS : effS s := effS_of_guards s h1 h2
        by_cases h3 : aOk i = true
        · by_cases h4 : bOk i = true
          · simp only [resyncTrans, if_neg h1, if_neg h2, getPair_aligned s i pm p0 hp0 hb0,
              h3, h4, if_true]
            have hal3 : AlignedAt (pmSet pm i (swapPair p0)) rest (i + 1) :=
              alignedAt_of_agree pm (pmSet pm i (swapPair p0)) rest (i + 1)
                (fun m hm => pmSet_other pm i m (swapPair p0) (by omega)) htail
            match jj with
            | 0 =>
              have hpp : p = p0 := by
                rw [show i + 0 = i by omega, hp0] at hp2
                exact (Option.some.inj hp2).symm
              constructor
              · intro _ _
                rw [resyncTrans_outside mode ff aOk bOk rest (i + 1)
                      (pmSet pm i (swapPair p0)) hal3 (i + 0) (by omega)]
                rw [show i + 0 = i by omega, pmSet_same, hpp]
              · intro hn
                exact absurd ⟨by simpa using heS,
                  (transOkThrough_zero aOk bOk s rest i).mpr (fun _ => ⟨h3, h4⟩)⟩ hn
            | j + 1 =>
              have hiff : transOkThrough aOk bOk (s :: rest) i (j + 1) ↔
                  transOkThrough aOk bOk rest (i + 1) j := by
                rw [transOkThrough_succ]
                constructor
                · exact fun hc => hc.2
                · exact fun hr => ⟨fun _ => ⟨h3, h4⟩, hr⟩
              have hp3 : pmSet pm i (swapPair p0) (i + 1 + j) = some p := by
                rw [pmSet_other pm i (i + 1 + j) (swapPair p0) (by omega),
                  show i + 1 + j = i + (j + 1) by omega]
                exact hp2
              have := ih (i + 1) (pmSet pm i (swapPair p0)) hal3 j
                (by simpa using Nat.lt_of_succ_lt_succ h) p hp3
              rw [show i + (j + 1) = i + 1 + j by omega]
              constructor
              · intro he htr
                exact this.1 (by simpa using he) (hiff.mp htr)
              · intro hn
                exact this.2 (by
                  intro hcon
                  exact hn ⟨by simpa using hcon.1, hiff.mpr hcon.2⟩)
          · have hnt : ∀ jj2, ¬ transOkThrough aOk bOk (s :: rest) i jj2 := by
              intro jj2 htr
              exact h4 (htr 0 (by omega) (by simp) (by simpa using heS)).2
            simp only [resyncTrans, if_neg h1, if_neg h2, getPair_aligned s i pm p0 hp0 hb0,
              h3, h4, if_true]
            constructor
            · intro _ htr
              exact absurd htr (hnt jj)
            · intro _
              show pm (i + jj) = some p
              exact hp2
        · have hnt : ∀ jj2, ¬ transOkThrough aOk bOk (s :: rest) i jj2 := by
            intro jj2 htr
            exact h3 (htr 0 (by omega) (by simp) (by simpa using heS)).1
          simp only [resyncTrans, if_neg h1, if_neg h2, getPair_aligned s i pm p0 hp0 hb0, h3]
          constructor
          · intro _ htr
            exact absurd htr (hnt jj)
          · intro _
            show pm (i + jj) = some p
            exact hp2

/-- Every effective slot's arm batch would succeed. -/
def armAllOk (armOk : Nat → Bool) (l : List Slot) : Prop :=
  ∀ j, ∀ h : j < l.length, effS (l.get ⟨j, h⟩) → armOk j = true

theorem pm3_aligned : AlignedAt pm3 cfg3.slots 0 :=
  ⟨⟨⟨10, 20, 10⟩, rfl, rfl⟩, ⟨⟨20, 30, 20⟩, rfl, rfl⟩, ⟨⟨30, 40, 30⟩, rfl, rfl⟩, trivial⟩

/-- C4: per-slot swap atomicity of resyncAll. -/
theorem resyncAll_swap_atomic (cfg : Config) (pm : PairMap) (mode : String) (tf : ℚ)
    (armOk aOk bOk : Nat → Bool) (hal : AlignedAt pm cfg.slots 0)
    (jj : Nat) (h : jj < cfg.slots.length) (p : Pair) (hp : pm jj = some p)
    (heff : effS (cfg.slots.get ⟨jj, h⟩)) :
    (armAllOk armOk cfg.slots ∧ transOkThrough aOk bOk cfg.slots 0 jj →
       (resyncAll cfg pm mode tf armOk aOk bOk).1 jj = some (swapPair p)) ∧
    (¬(armAllOk armOk cfg.slots ∧ transOkThrough aOk bOk cfg.slots 0 jj) →
       (resyncAll cfg pm mode tf armOk aOk bOk).1 jj = some p) := by
  have hpm := resyncArm_pm tf armOk cfg.slots 0 pm hal
  cases herr : (resyncArm tf armOk cfg.slots 0 pm).2.2 with
  | some k =>
    have hres : (resyncAll cfg pm mode tf armOk aOk bOk).1 = pm := by
      simp only [resyncAll, herr]
      exact hpm
    have hnall : ¬ armAllOk armOk cfg.slots := by
      intro hall
      rw [resyncArm_err_none tf armOk cfg.slots 0 pm
        (fun j hj he => by simpa using hall j hj he)] at herr
      exact Option.noConfusion herr
    constructor
    · intro hcon
      exact absurd hcon.1 hnall
    · intro _
      rw [hres]
      exact hp
  | none =>
    have hall : armAllOk armOk cfg.slots := by
      intro j hj he
      have := resyncArm_allok_of_err_none tf armOk cfg.slots 0 pm herr j hj he
      simpa using this
    have hres : (resyncAll cfg pm mode tf armOk aOk bOk).1
        = (resyncTrans mode cfg.fadeFrames aOk bOk cfg.slots 0 pm).1 := by
      simp only [resyncAll, herr]
      rw [hpm]
    have hp0 : pm (0 + jj) = some p := by simpa using hp
    have hchar := resyncTrans_at mode cfg.fadeFrames aOk bOk cfg.slots 0 pm hal jj h p hp0
    constructor
    · intro hcon
      rw [hres]
      have := hchar.1 heff hcon.2
      simpa using this
    · intro hn
      rw [hres]
      have hntr : ¬ transOkThrough aOk bOk cfg.slots 0 jj := fun htr => hn ⟨hall, htr⟩
      have := hchar.2 (fun hcon => hntr hcon.2)
      simpa using this

/-- C4 witness. -/
theorem resyncAll_swap_atomic_witness :
    pm3 0 = some ⟨10, 20, 10⟩ ∧ effS (cfg3.slots.get ⟨0, by decide⟩) ∧
    (resyncAll cfg3 pm3 "cut" 100 allOkB allOkB allOkB).1 0 = some (swapPair ⟨10, 20, 10⟩) :=
  ⟨rfl, by decide,
   (resyncAll_swap_atomic cfg3 pm3 "cut" 100 allOkB allOkB allOkB pm3_aligned 0 (by decide)
      ⟨10, 20, 10⟩ rfl (by decide)).1
     ⟨fun j hj he => rfl, fun j2 hj2 h2 he2 => ⟨rfl, rfl⟩⟩⟩

/-- C2, amended: the first failing arm batch aborts the whole resyncAll. -/
theorem resyncAll_aborts_on_arm_failure (cfg : Config) (pm : PairMap) (mode : String)
    (tf : ℚ) (armOk aOk bOk : Nat → Bool) (hal : AlignedAt pm cfg.slots 0)
    (k : Nat) (hk : k < cfg.slots.length) (heff : effS (cfg.slots.get ⟨k, hk⟩))
    (hfail : armOk k = false)
    (hbefore : ∀ j, j < k → ∀ h : j < cfg.slots.length, effS (cfg.slots.get ⟨j, h⟩) →
       armOk j = true) :
    (resyncAll cfg pm mode tf armOk aOk bOk).2.2 = some k ∧
    ∀ m, (resyncAll cfg pm mode tf armOk aOk bOk).1 m = pm m := by
  have herr : (resyncArm tf armOk cfg.slots 0 pm).2.2 = some (0 + k) :=
    resyncArm_err_first tf armOk cfg.slots 0 pm k hk heff (by simpa using hfail)
      (fun j hj h he => by simpa using hbefore j hj h he)
  rw [show (0 : Nat) + k = k by omega] at herr
  have hpm := resyncArm_pm tf armOk cfg.slots 0 pm hal
  constructor
  · simp only [resyncAll, herr]
  · intro m
    simp only [resyncAll, herr]
    rw [hpm]

/-- C2 witness. -/
theorem resyncAll_aborts_on_arm_failure_witness :
    effS (cfg3.slots.get ⟨2, by decide⟩) ∧ armFail2 2 = false ∧
    ((resyncAll cfg3 pm3 "cut" 100 armFail2 allOkB allOkB).2.2 = some 2 ∧
     ∀ m, (resyncAll cfg3 pm3 "cut" 100 armFail2 allOkB allOkB).1 m = pm3 m) :=
  ⟨by decide, by decide,
   resyncAll_aborts_on_arm_failure cfg3 pm3 "cut" 100 armFail2 allOkB allOkB pm3_aligned
     2 (by decide) (by decide) (by decide)
     (fun j hj h he => by interval_cases j <;> rfl)⟩

/-- C2 counterexample: scenario S5 on the code: the arm failure of slot 2
propagates at once; slots 0 and 1 do NOT swap and no aggregate error list is
built (the result carries a single failing index). -/
theorem resyncAll_s5_no_aggregation_cex :
    (resyncAll cfg3 pm3 "cut" 100 armFail2 allOkB allOkB).2.2 = some 2 ∧
    (resyncAll cfg3 pm3 "cut" 100 armFail2 allOkB allOkB).1 0 = some ⟨10, 20, 10⟩ ∧
    (resyncAll cfg3 pm3 "cut" 100 armFail2 allOkB allOkB).1 1 = some ⟨20, 30, 20⟩ ∧
    ¬((resyncAll cfg3 pm3 "cut" 100 armFail2 allOkB allOkB).1 0
        = some (swapPair ⟨10, 20, 10⟩)) ∧
    ¬((resyncAll cfg3 pm3 "cut" 100 armFail2 allOkB allOkB).1 1
        = some (swapPair ⟨20, 30, 20⟩)) := by
  decide

/-- A pair is the unordered pair (baseLayer, baseLayer + 10) recorded in its
own baseLayer field, in one of the two orders. -/
def pairOk (p : Pair) : Prop :=
  (p.active = p.baseLayer ∧ p.standby = p.baseLayer + 10) ∨
  (p.active = p.baseLayer + 10 ∧ p.standby = p.baseLayer)

/-- Every pair stored anywhere in the map is well formed. -/
def AllPairsOk (pm : PairMap) : Prop :=
  ∀ i p, pm i = some p → pairOk p

/-- Every stored pair under the slot list placed at base index i records the
baseLayer of its slot. -/
def BaseAlignedAt (l : List Slot) (i : Nat) (pm : PairMap) : Prop :=
  ∀ j, ∀ h : j < l.length, ∀ p, pm (i + j) = some p →
    p.baseLayer = (l.get ⟨j, h⟩).baseLayer

/-- The claim C3 invariant: every stored pair is well formed, and pairs of
configured slots record the slot's current baseLayer. -/
def PairInv (slots : List Slot) (pm : PairMap) : Prop :=
  AllPairsOk pm ∧ BaseAlignedAt slots 0 pm

theorem swapPair_ok (p : Pair) (h : pairOk p) :
    pairOk (swapPair p) ∧ (swapPair p).baseLayer = p.baseLayer := by
  rcases h with ⟨ha, hs⟩ | ⟨ha, hs⟩
  · exact ⟨Or.inr ⟨hs, ha⟩, rfl⟩
  · exact ⟨Or.inl ⟨hs, ha⟩, rfl⟩

theorem baseAlignedAt_tail (s : Slot) (rest : List Slot) (i : Nat) (pm : PairMap)
    (h : BaseAlignedAt (s :: rest) i pm) : BaseAlignedAt rest (i + 1) pm := by
  intro j hj p hp
  have := h (j + 1) (by simpa using Nat.succ_lt_succ hj) p
    (by rw [show i + (j + 1) = i + 1 + j by omega]; exact hp)
  simpa using this

theorem baseAlignedAt_cons (s : Slot) (rest : List Slot) (i : Nat) (pm : PairMap)
    (hhead : ∀ p, pm i = some p → p.baseLayer = s.baseLayer)
    (htail : BaseAlignedAt rest (i + 1) pm) : BaseAlignedAt (s :: rest) i pm := by
  intro j hj p hp
  match j with
  | 0 =>
    simpa using hhead p (by simpa using hp)
  | j + 1 =>
    have := htail j (by simpa using Nat.lt_of_succ_lt_succ hj) p
      (by rw [show i + 1 + j = i + (j + 1) by omega]; exact hp)
    simpa using this

theorem getPair_props (s : Slot) (i : Nat) (pm : PairMap)
    (hok : ∀ p, pm i = some p → pairOk p) :
    pairOk (getPair s i pm).1 ∧ (getPair s i pm).1.baseLayer = s.baseLayer ∧
    (∀ k, k ≠ i → (getPair s i pm).2 k = pm k) ∧
    (getPair s i pm).2 i = some (getPair s i pm).1 := by
  cases hpi : pm i with
  | some pair =>
    by_cases hb : pair.baseLayer = s.baseLayer
    · rw [getPair_aligned s i pm pair hpi hb]
      exact ⟨hok pair hpi, hb, fun k _ => rfl, hpi⟩
    · have hgp : getPair s i pm
          = (⟨s.baseLayer, s.baseLayer + 10, s.baseLayer⟩,
             pmSet pm i ⟨s.baseLayer, s.baseLayer + 10, s.baseLayer⟩) := by
        unfold getPair
        rw [hpi]
        simp [hb]
      rw [hgp]
      exact ⟨Or.inl ⟨rfl, rfl⟩, rfl,
        fun k hk => pmSet_other pm i k _ hk, pmSet_same pm i _⟩
  | none =>
    have hgp : getPair s i pm
        = (⟨s.baseLayer, s.baseLayer + 10, s.baseLayer⟩,
           pmSet pm i ⟨s.baseLayer, s.baseLayer + 10, s.baseLayer⟩) := by
      unfold getPair
      rw [hpi]
    rw [hgp]
    exact ⟨Or.inl ⟨rfl, rfl⟩, rfl,
      fun k hk => pmSet_other pm i k _ hk, pmSet_same pm i _⟩

theorem baseAlignedAt_of_agree (l : List Slot) (i : Nat) (pm pm2 : PairMap)
    (hag : ∀ k, i ≤ k → pm2 k = pm k) (h : BaseAlignedAt l i pm) :
    BaseAlignedAt l i pm2 := by
  intro j hj p hp
  exact h j hj p (by rw [← hag (i + j) (by omega)]; exact hp)

theorem allPairsOk_getPair (s : Slot) (i : Nat) (pm : PairMap) (hok : AllPairsOk pm) :
    AllPairsOk (getPair s i pm).2 := by
  obtain ⟨gok, _, gout, gsame⟩ := getPair_props s i pm (fun p hp => hok i p hp)
  intro k p hp
  by_cases hk : k = i
  · subst hk
    rw [gsame] at hp
    exact (Option.some.inj hp) ▸ gok
  · rw [gout k hk] at hp
    exact hok k p hp

theorem resyncArm_inv (tf : ℚ) (armOk : Nat → Bool) :
    ∀ (l : List Slot) (i : Nat) (pm : PairMap), AllPairsOk pm → BaseAlignedAt l i pm →
      AllPairsOk (resyncArm tf armOk l i pm).1 ∧
      BaseAlignedAt l i (resyncArm tf armOk l i pm).1 ∧
      (∀ k, k < i ∨ i + l.length ≤ k → (resyncArm tf armOk l i pm).1 k = pm k) := by
  intro l
  induction l with
  | nil => intro i pm hok hal; exact ⟨hok, hal, fun k _ => rfl⟩
  | cons s rest ih =>
    intro i pm hok hal
    have htail := baseAlignedAt_tail s rest i pm hal
    by_cases h1 : s.enabled = JsVal.jbool false
    · simp only [resyncArm, if_pos h1]
      obtain ⟨rok, ral, rout⟩ := ih (i + 1) pm hok htail
      refine ⟨rok, baseAlignedAt_cons s rest i _ ?_ ral, ?_⟩
      · intro p hp
        rw [rout i (Or.inl (by omega))] at hp
        have := hal 0 (by simp) p (by simpa using hp)
        simpa using this
      · intro k hk
        refine rout k ?_
        simp only [List.length_cons] at hk
        omega
    · by_cases h2 : s.host = "" ∨ s.clip = ""
      · simp only [resyncArm, if_neg h1, if_pos h2]
        obtain ⟨rok, ral, rout⟩ := ih (i + 1) pm hok htail
        refine ⟨rok, baseAlignedAt_cons s rest i _ ?_ ral, ?_⟩
        · intro p hp
          rw [rout i (Or.inl (by omega))] at hp
          have := hal 0 (by simp) p (by simpa using hp)
          simpa using this
        · intro k hk
          refine rout k ?_
          rcases hk with hk | hk
          · exact Or.inl (by omega)
          · exact Or.inr (by simp at hk; omega)
      · obtain ⟨gok, gbase, gout, gsame⟩ := getPair_props s i pm (fun p hp => hok i p hp)
        have hok2 : AllPairsOk (getPair s i pm).2 := allPairsOk_getPair s i pm hok
        have htail2 : BaseAlignedAt rest (i + 1) (getPair s i pm).2 :=
          baseAlignedAt_of_agree rest (i + 1) pm (getPair s i pm).2
            (fun k hk => gout k (by omega)) htail
        by_cases h3 : armOk i = true
        · simp only [resyncArm, if_neg h1, if_neg h2, h3, if_true]
          obtain ⟨rok, ral, rout⟩ := ih (i + 1) (getPair s i pm).2 hok2 htail2
          refine ⟨rok, baseAlignedAt_cons s rest i _ ?_ ral, ?_⟩
          · intro p hp
            rw [rout i (Or.inl (by omega)), gsame] at hp
            exact (Option.some.inj hp) ▸ gbase
          · intro k hk
            have hkni : k ≠ i := by simp only [List.length_cons] at hk; omega
            rw [rout k (by simp only [List.length_cons] at hk; omega)]
            exact gout k hkni
        · have h3f : armOk i = false := by simpa using h3
          simp only [resyncArm, if_neg h1, if_neg h2, h3f, Bool.false_eq_true, if_false]
          refine ⟨hok2, baseAlignedAt_cons s rest i _ ?_ htail2, ?_⟩
          · intro p hp
            rw [gsame] at hp
            exact (Option.some.inj hp) ▸ gbase
          · intro k hk
            have hkni : k ≠ i := by simp only [List.length_cons] at hk; omega
            exact gout k hkni

theorem resyncTrans_inv (mode : String) (ff : ℚ) (aOk bOk : Nat → Bool) :
    ∀ (l : List Slot) (i : Nat) (pm : PairMap), AllPairsOk pm → BaseAlignedAt l i pm →
      AllPairsOk (resyncTrans mode ff aOk bOk l i pm).1 ∧
      BaseAlignedAt l i (resyncTrans mode ff aOk bOk l i pm).1 ∧
      (∀ k, k < i ∨ i + l.length ≤ k → (resyncTrans mode ff aOk bOk l i pm).1 k = pm k) := by
  intro l
  induction l with
  | nil => intro i pm hok hal; exact ⟨hok, hal, fun k _ => rfl⟩
  | cons s rest ih =>
    intro i pm hok hal
    have htail := baseAlignedAt_tail s rest i pm hal
    by_cases h1 : s.enabled = JsVal.jbool false
    · simp only [resyncTrans, if_pos h1]
      obtain ⟨rok, ral, rout⟩ := ih (i + 1) pm hok htail
      refine ⟨rok, baseAlignedAt_cons s rest i _ ?_ ral, ?_⟩
      · intro p hp
        rw [rout i (Or.inl (by omega))] at hp
        have := hal 0 (by simp) p (by simpa using hp)
        simpa using this
      · intro k hk
        refine rout k ?_
        simp only [List.length_cons] at hk
        omega
    · by_cases h2 : s.host = "" ∨ s.clip = ""
      · simp only [resyncTrans, if_neg h1, if_pos h2]
        obtain ⟨rok, ral, rout⟩ := ih (i + 1) pm hok htail
        refine ⟨rok, baseAlignedAt_cons s rest i _ ?_ ral, ?_⟩
        · intro p hp
          rw [rout i (Or.inl (by omega))] at hp
          have := hal 0 (by simp) p (by simpa using hp)
          simpa using this
        · intro k hk
          refine rout k ?_
          simp only [List.length_cons] at hk
          omega
      · obtain ⟨gok, gbase, gout, gsame⟩ := getPair_props s i pm (fun p hp => hok i p hp)
        have hok2 : AllPairsOk (getPair s i pm).2 := allPairsOk_getPair s i pm hok
        have htail2 : BaseAlignedAt rest (i + 1) (getPair s i pm).2 :=
          baseAlignedAt_of_agree rest (i + 1) pm (getPair s i pm).2
            (fun k hk => gout k (by omega)) htail
        by_cases h3 : aOk i = true
        · by_cases h4 : bOk i = true
          · simp only [resyncTrans, if_neg h1, if_neg h2, h3, h4, if_true]
            have hok3 : AllPairsOk (pmSet (getPair s i pm).2 i (swapPair (getPair s i pm).1)) := by
              intro k p hp
              by_cases hk : k = i
              · subst hk
                rw [pmSet_same] at hp
                exact (Option.some.inj hp) ▸ (swapPair_ok _ gok).1
              · rw [pmSet_other _ _ _ _ hk] at hp
                exact hok2 k p hp
            have htail3 : BaseAlignedAt rest (i + 1)
                (pmSet (getPair s i pm).2 i (swapPair (getPair s i pm).1)) :=
              baseAlignedAt_of_agree rest (i + 1) (getPair s i pm).2 _
                (fun k hk => pmSet_other _ _ _ _ (by omega)) htail2
            obtain ⟨rok, ral, rout⟩ := ih (i + 1) _ hok3 htail3
            refine ⟨rok, baseAlignedAt_cons s rest i _ ?_ ral, ?_⟩
            · intro p hp
              rw [rout i (Or.inl (by omega)), pmSet_same] at hp
              rw [← Option.some.inj hp]
              rw [(swapPair_ok _ gok).2]
              exact gbase
            · intro k hk
              have hkni : k ≠ i := by simp only [List.length_cons] at hk; omega
              rw [rout k (by simp only [List.length_cons] at hk; omega),
                pmSet_other _ _ _ _ hkni]
              exact gout k hkni
          · have h4f : bOk i = false := by simpa using h4
            simp only [resyncTrans, if_neg h1, if_neg h2, h3, h4f, if_true,
              Bool.false_eq_true, if_false]
            refine ⟨hok2, baseAlignedAt_cons s rest i _ ?_ htail2, ?_⟩
            · intro p hp
              rw [gsame] at hp
              exact (Option.some.inj hp) ▸ gbase
            · intro k hk
              have hkni : k ≠ i := by simp only [List.length_cons] at hk; omega
              exact gout k hkni
        · have h3f : aOk i = false := by simpa using h3
          simp only [resyncTrans, if_neg h1, if_neg h2, h3f, Bool.false_eq_true, if_false]
          refine ⟨hok2, baseAlignedAt_cons s rest i _ ?_ htail2, ?_⟩
          · intro p hp
            rw [gsame] at hp
            exact (Option.some.inj hp) ▸ gbase
          · intro k hk
            have hkni : k ≠ i := by simp only [List.length_cons] at hk; omega
            exact gout k hkni

theorem resetPairs_inv :
    ∀ (l : List Slot) (i : Nat) (pm : PairMap), AllPairsOk pm →
      AllPairsOk (resetPairs l i pm) ∧ BaseAlignedAt l i (resetPairs l i pm) ∧
      (∀ k, k < i ∨ i + l.length ≤ k → resetPairs l i pm k = pm k) := by
  intro l
  induction l with
  | nil =>
    intro i pm hok
    exact ⟨hok, fun j hj => absurd hj (by simp), fun k _ => rfl⟩
  | cons s rest ih =>
    intro i pm hok
    have hok2 : AllPairsOk (pmSet pm i ⟨s.baseLayer, s.baseLayer + 10, s.baseLayer⟩) := by
      intro k p hp
      by_cases hk : k = i
      · subst hk
        rw [pmSet_same] at hp
        exact (Option.some.inj hp) ▸ Or.inl ⟨rfl, rfl⟩
      · rw [pmSet_other _ _ _ _ hk] at hp
        exact hok k p hp
    obtain ⟨rok, ral, rout⟩ := ih (i + 1) _ hok2
    simp only [resetPairs]
    refine ⟨rok, baseAlignedAt_cons s rest i _ ?_ ral, ?_⟩
    · intro p hp
      rw [rout i (Or.inl (by omega)), pmSet_same] at hp
      rw [← Option.some.inj hp]
    · intro k hk
      have hkni : k ≠ i := by simp only [List.length_cons] at hk; omega
      rw [rout k (by simp only [List.length_cons] at hk; omega),
        pmSet_other _ _ _ _ hkni]

theorem configUpdatePairs_inv :
    ∀ (l : List Slot) (i : Nat) (pm : PairMap), AllPairsOk pm →
      AllPairsOk (configUpdatePairs l i pm) ∧
      BaseAlignedAt l i (configUpdatePairs l i pm) ∧
      (∀ k, k < i ∨ i + l.length ≤ k → configUpdatePairs l i pm k = pm k) := by
  intro l
  induction l with
  | nil =>
    intro i pm hok
    exact ⟨hok, fun j hj => absurd hj (by simp), fun k _ => rfl⟩
  | cons s rest ih =>
    intro i pm hok
    have hokset : AllPairsOk (pmSet pm i ⟨s.baseLayer, s.baseLayer + 10, s.baseLayer⟩) := by
      intro k p hp
      by_cases hk : k = i
      · subst hk
        rw [pmSet_same] at hp
        exact (Option.some.inj hp) ▸ Or.inl ⟨rfl, rfl⟩
      · rw [pmSet_other _ _ _ _ hk] at hp
        exact hok k p hp
    cases hpi : pm i with
    | some pair =>
      by_cases hb : pair.baseLayer = s.baseLayer
      · simp only [configUpdatePairs, hpi, hb, if_true]
        obtain ⟨rok, ral, rout⟩ := ih (i + 1) pm hok
        refine ⟨rok, baseAlignedAt_cons s rest i _ ?_ ral, ?_⟩
        · intro p hp
          rw [rout i (Or.inl (by omega)), hpi] at hp
          rw [← Option.some.inj hp]
          exact hb
        · intro k hk
          exact rout k (by simp only [List.length_cons] at hk; omega)
      · simp only [configUpdatePairs, hpi, hb, if_false]
        obtain ⟨rok, ral, rout⟩ := ih (i + 1) _ hokset
        refine ⟨rok, baseAlignedAt_cons s rest i _ ?_ ral, ?_⟩
        · intro p hp
          rw [rout i (Or.inl (by omega)), pmSet_same] at hp
          rw [← Option.some.inj hp]
        · intro k hk
          have hkni : k ≠ i := by simp only [List.length_cons] at hk; omega
          rw [rout k (by simp only [List.length_cons] at hk; omega),
            pmSet_other _ _ _ _ hkni]
    | none =>
      simp only [configUpdatePairs, hpi]
      obtain ⟨rok, ral, rout⟩ := ih (i + 1) _ hokset
      refine ⟨rok, baseAlignedAt_cons s rest i _ ?_ ral, ?_⟩
      · intro p hp
        rw [rout i (Or.inl (by omega)), pmSet_same] at hp
        rw [← Option.some.inj hp]
      · intro k hk
        have hkni : k ≠ i := by simp only [List.length_cons] at hk; omega
        rw [rout k (by simp only [List.length_cons] at hk; omega),
          pmSet_other _ _ _ _ hkni]

theorem pm3_inv : PairInv cfg3.slots pm3 := by
  constructor
  · intro i p hp
    unfold pm3 at hp
    split_ifs at hp
    all_goals (cases hp; exact Or.inl ⟨rfl, rfl⟩)
  · intro j hj p hp
    have hj3 : j < 3 := by simpa [cfg3] using hj
    interval_cases j
    · obtain rfl := (Option.some.inj hp).symm
      rfl
    · obtain rfl := (Option.some.inj hp).symm
      rfl
    · obtain rfl := (Option.some.inj hp).symm
      rfl

/-- C3: the dual-layer pair invariant and its preservation by every
pair-mutating operation: getPair initialisation, the startAll reset, the
cut/fade transition swap inside resyncAll, and the config-update repair
loop. -/
theorem pair_invariant_preserved (cfg : Config) (pm : PairMap)
    (hinv : PairInv cfg.slots pm) :
    (∀ j, ∀ h : j < cfg.slots.length, ∀ p, pm j = some p →
       (p.active = (cfg.slots.get ⟨j, h⟩).baseLayer ∧
        p.standby = (cfg.slots.get ⟨j, h⟩).baseLayer + 10) ∨
       (p.active = (cfg.slots.get ⟨j, h⟩).baseLayer + 10 ∧
        p.standby = (cfg.slots.get ⟨j, h⟩).baseLayer)) ∧
    (∀ i, ∀ h : i < cfg.slots.length,
       pairOk (getPair (cfg.slots.get ⟨i, h⟩) i pm).1 ∧
       (getPair (cfg.slots.get ⟨i, h⟩) i pm).1.baseLayer
         = (cfg.slots.get ⟨i, h⟩).baseLayer ∧
       PairInv cfg.slots (getPair (cfg.slots.get ⟨i, h⟩) i pm).2) ∧
    PairInv cfg.slots (resetPairs cfg.slots 0 pm) ∧
    (∀ p, pairOk p → pairOk (swapPair p) ∧ (swapPair p).baseLayer = p.baseLayer) ∧
    (∀ (mode : String) (tf : ℚ) (armOk aOk bOk : Nat → Bool),
       PairInv cfg.slots (resyncAll cfg pm mode tf armOk aOk bOk).1) ∧
    (∀ slots2 : List Slot, PairInv slots2 (configUpdatePairs slots2 0 pm)) := by
  obtain ⟨hok, hal⟩ := hinv
  refine ⟨?_, ?_, ?_, ?_, ?_, ?_⟩
  · intro j h p hp
    have hb := hal j h p (by simpa using hp)
    have hpo := hok j p hp
    rcases hpo with ⟨ha, hs⟩ | ⟨ha, hs⟩
    · exact Or.inl ⟨hb ▸ ha, hb ▸ hs⟩
    · exact Or.inr ⟨hb ▸ ha, hb ▸ hs⟩
  · intro i h
    obtain ⟨gok, gbase, gout, gsame⟩ :=
      getPair_props (cfg.slots.get ⟨i, h⟩) i pm (fun p hp => hok i p hp)
    refine ⟨gok, gbase, allPairsOk_getPair _ i pm hok, ?_⟩
    intro j hj p hp
    by_cases hji : j = i
    · subst hji
      rw [show (0 : Nat) + j = j by omega, gsame] at hp
      rw [← Option.some.inj hp]
      exact gbase
    · rw [show (0 : Nat) + j = j by omega, gout j hji] at hp
      exact hal j hj p (by simpa using hp)
  · obtain ⟨rok, ral, _⟩ := resetPairs_inv cfg.slots 0 pm hok
    exact ⟨rok, ral⟩
  · exact fun p hp => swapPair_ok p hp
  · intro mode tf armOk aOk bOk
    obtain ⟨aok, aal, _⟩ := resyncArm_inv tf armOk cfg.slots 0 pm hok hal
    cases herr : (resyncArm tf armOk cfg.slots 0 pm).2.2 with
    | some k =>
      have hres : (resyncAll cfg pm mode tf armOk aOk bOk).1
          = (resyncArm tf armOk cfg.slots 0 pm).1 := by
        simp only [resyncAll, herr]
      rw [hres]
      exact ⟨aok, aal⟩
    | none =>
      obtain ⟨tok, tal, _⟩ :=
        resyncTrans_inv mode cfg.fadeFrames aOk bOk cfg.slots 0
          (resyncArm tf armOk cfg.slots 0 pm).1 aok aal
      have hres : (resyncAll cfg pm mode tf armOk aOk bOk).1
          = (resyncTrans mode cfg.fadeFrames aOk bOk cfg.slots 0
              (resyncArm tf armOk cfg.slots 0 pm).1).1 := by
        simp only [resyncAll, herr]
      rw [hres]
      exact ⟨tok, tal⟩
  · intro slots2
    obtain ⟨rok, ral, _⟩ := configUpdatePairs_inv slots2 0 pm hok
    exact ⟨rok, ral⟩

/-- C3 witness. -/
theorem pair_invariant_preserved_witness :
    PairInv cfg3.slots pm3 ∧ PairInv cfg3.slots (resetPairs cfg3.slots 0 pm3) :=
  ⟨pm3_inv, (pair_invariant_preserved cfg3 pm3 pm3_inv).2.2.1⟩

/-- Recogniser for the commands pauseAll may emit: the envelope and PAUSE. -/
def isPauseEnvB (c : Cmd) : Bool :=
  match c with
  | Cmd.defer => true
  | Cmd.resume => true
  | Cmd.pause _ _ => true
  | _ => false

theorem flatCmds_cons (xs : List Cmd) (rest : List (List Cmd)) :
    flatCmds (xs :: rest) = xs ++ flatCmds rest := rfl

theorem flatCmds_all (p : Cmd → Bool) :
    ∀ xss : List (List Cmd), (flatCmds xss).all p = xss.all (fun xs => xs.all p) := by
  intro xss
  induction xss with
  | nil => rfl
  | cons xs rest ih => rw [flatCmds_cons, List.all_append, ih, List.all_cons]

/-- C8: pauseAll leaves t0 untouched and only issues PAUSE commands inside
the DEFER/RESUME envelopes. -/
theorem pauseAll_preserves_t0 (st : SyncState) :
    (pauseAll st).1.t0 = st.t0 ∧
    (flatCmds (pauseAll st).2).all isPauseEnvB = true := by
  refine ⟨rfl, ?_⟩
  have h2 : (pauseAll st).2
      = (groupItems (fun it => slotKey it.2.1) (pauseItems st.config.slots 0 st.pm).1).map
        (fun g => Cmd.defer ::
           (g.2.foldr (fun it acc =>
              [Cmd.pause it.2.1.channel it.2.2.active,
               Cmd.pause it.2.1.channel it.2.2.standby] ++ acc) []) ++ [Cmd.resume]) := rfl
  rw [h2, flatCmds_all, List.all_eq_true]
  intro xs hxs
  rw [List.mem_map] at hxs
  obtain ⟨g, _, rfl⟩ := hxs
  have hinner : ∀ its : List (Nat × Slot × Pair), ∀ c : Cmd,
      c ∈ its.foldr (fun it acc =>
        [Cmd.pause it.2.1.channel it.2.2.active,
         Cmd.pause it.2.1.channel it.2.2.standby] ++ acc) [] →
      isPauseEnvB c = true := by
    intro its
    induction its with
    | nil => intro c hc; cases hc
    | cons a as ih =>
      intro c hc
      have hc2 : c ∈ [Cmd.pause a.2.1.channel a.2.2.active,
          Cmd.pause a.2.1.channel a.2.2.standby] ++ as.foldr (fun it acc =>
            [Cmd.pause it.2.1.channel it.2.2.active,
             Cmd.pause it.2.1.channel it.2.2.standby] ++ acc) [] := hc
      rcases List.mem_append.mp hc2 with hc3 | hc3
      · simp only [List.mem_cons, List.mem_singleton, List.not_mem_nil, or_false] at hc3
        rcases hc3 with rfl | rfl <;> rfl
      · exact ih c hc3
  rw [List.all_eq_true]
  intro c hc
  simp only [List.mem_cons, List.mem_append, List.mem_singleton] at hc
  rcases hc with (rfl | hc) | (rfl | hnil)
  · rfl
  · exact hinner g.2 c hc
  · rfl
  · cases hnil

theorem snapshotRows_mem_char (curr : Nat → Option Int) (tf : Int) :
    ∀ (l : List Slot) (i : Nat) (pm : PairMap) (r : Row),
      r ∈ (snapshotRows curr tf l i pm).1 →
      ∃ j, ∃ h : j < l.length, r.index = i + j ∧ effS (l.get ⟨j, h⟩) ∧
        r.drift = (match curr (i + j) with
          | some c => some (c - tf)
          | none => none) := by
  intro l
  induction l with
  | nil => intro i pm r hr; cases hr
  | cons s rest ih =>
    intro i pm r hr
    by_cases h1 : s.enabled = JsVal.jbool false
    · simp only [snapshotRows, if_pos h1] at hr
      obtain ⟨j, h, hidx, heff, hdr⟩ := ih (i + 1) pm r hr
      exact ⟨j + 1, by simpa using Nat.succ_lt_succ h,
        by rw [hidx]; omega, by simpa using heff,
        by rw [show i + (j + 1) = i + 1 + j by omega]; exact hdr⟩
    · by_cases h2 : s.host = "" ∨ s.clip = ""
      · simp only [snapshotRows, if_neg h1, if_pos h2] at hr
        obtain ⟨j, h, hidx, heff, hdr⟩ := ih (i + 1) pm r hr
        exact ⟨j + 1, by simpa using Nat.succ_lt_succ h,
          by rw [hidx]; omega, by simpa using heff,
          by rw [show i + (j + 1) = i + 1 + j by omega]; exact hdr⟩
      · simp only [snapshotRows, if_neg h1, if_neg h2, List.mem_cons] at hr
        rcases hr with rfl | hr
        · refine ⟨0, by simp, by simp, by simpa using effS_of_guards s h1 h2, ?_⟩
          rw [show i + 0 = i by omega]
        · obtain ⟨j, h, hidx, heff, hdr⟩ := ih (i + 1) (getPair s i pm).2 r hr
          exact ⟨j + 1, by simpa using Nat.succ_lt_succ h,
            by rw [hidx]; omega, by simpa using heff,
            by rw [show i + (j + 1) = i + 1 + j by omega]; exact hdr⟩

theorem snapshotRows_mem_exists (curr : Nat → Option Int) (tf : Int) :
    ∀ (l : List Slot) (i : Nat) (pm : PairMap) (j : Nat) (h : j < l.length),
      effS (l.get ⟨j, h⟩) →
      ∃ r, r ∈ (snapshotRows curr tf l i pm).1 ∧ r.index = i + j ∧
        r.drift = (match curr (i + j) with
          | some c => some (c - tf)
          | none => none) := by
  intro l
  induction l with
  | nil => intro i pm j h; exact absurd h (by simp)
  | cons s rest ih =>
    intro i pm j h he
    by_cases h1 : s.enabled = JsVal.jbool false
    · match j with
      | 0 => exact absurd (by simpa using he) (fun heS : effS s => heS.1 h1)
      | j + 1 =>
        obtain ⟨r, hr, hidx, hdr⟩ := ih (i + 1) pm j
          (by simpa using Nat.lt_of_succ_lt_succ h) (by simpa using he)
        refine ⟨r, ?_, by rw [hidx]; omega,
          by rw [show i + (j + 1) = i + 1 + j by omega]; exact hdr⟩
        simp only [snapshotRows, if_pos h1]
        exact hr
    · by_cases h2 : s.host = "" ∨ s.clip = ""
      · match j with
        | 0 =>
          have heS : effS s := by simpa using he
          rcases h2 with h2 | h2
          · exact absurd h2 heS.2.1
          · exact absurd h2 heS.2.2
        | j + 1 =>
          obtain ⟨r, hr, hidx, hdr⟩ := ih (i + 1) pm j
            (by simpa using Nat.lt_of_succ_lt_succ h) (by simpa using he)
          refine ⟨r, ?_, by rw [hidx]; omega,
            by rw [show i + (j + 1) = i + 1 + j by omega]; exact hdr⟩
          simp only [snapshotRows, if_neg h1, if_pos h2]
          exact hr
      · match j with
        | 0 =>
          refine ⟨⟨i, s.channel, (getPair s i pm).1.active, (getPair s i pm).1.standby,
            curr i, tf, match curr i with
              | some c => some (c - tf)
              | none => none⟩, ?_, by simp, ?_⟩
          · simp only [snapshotRows, if_neg h1, if_neg h2]
            exact List.mem_cons_self _ _
          · rw [show i + 0 = i by omega]
        | j + 1 =>
          obtain ⟨r, hr, hidx, hdr⟩ := ih (i + 1) (getPair s i pm).2 j
            (by simpa using Nat.lt_of_succ_lt_succ h) (by simpa using he)
          refine ⟨r, ?_, by rw [hidx]; omega,
            by rw [show i + (j + 1) = i + 1 + j by omega]; exact hdr⟩
          simp only [snapshotRows, if_neg h1, if_neg h2, List.mem_cons]
          right
          exact hr

theorem needResync_iff (rows : List Row) (tol : Int) :
    needResync rows tol = true ↔ ∃ r ∈ rows, ∃ d, r.drift = some d ∧ tol < |d| := by
  unfold needResync
  rw [List.any_eq_true]
  constructor
  · rintro ⟨r, hr, hp⟩
    cases hd : r.drift with
    | none => rw [hd] at hp; cases hp
    | some d =>
      rw [hd] at hp
      exact ⟨r, hr, d, hd, by simpa using hp⟩
  · rintro ⟨r, hr, d, hd, htol⟩
    refine ⟨r, hr, ?_⟩
    rw [hd]
    simpa using htol

/-- C7, amended: on an AUTO tick the controller flags a resync exactly when
some effective slot has a non-null drift whose absolute value exceeds the
tolerance, where drift = currentFrame - tf; with tolerance 0 this means some
non-null, NONZERO drift (a zero drift never triggers). -/
theorem autosync_trigger_iff (cfg : Config) (pm : PairMap) (curr : Nat → Option Int)
    (tf tol : Int) :
    needResync (snapshotRows curr tf cfg.slots 0 pm).1 tol = true ↔
    ∃ j, ∃ h : j < cfg.slots.length, effS (cfg.slots.get ⟨j, h⟩) ∧
      ∃ c, curr j = some c ∧ tol < |c - tf| := by
  rw [needResync_iff]
  constructor
  · rintro ⟨r, hr, d, hd, htol⟩
    obtain ⟨j, h, _, heff, hdr⟩ := snapshotRows_mem_char curr tf cfg.slots 0 pm r hr
    refine ⟨j, h, heff, ?_⟩
    rw [show (0 : Nat) + j = j by omega] at hdr
    cases hc : curr j with
    | none =>
      rw [hc] at hdr
      rw [hdr] at hd
      cases hd
    | some c =>
      rw [hc] at hdr
      rw [hdr] at hd
      exact ⟨c, rfl, by rw [← Option.some.inj hd] at htol; exact htol⟩
  · rintro ⟨j, h, heff, c, hc, htol⟩
    obtain ⟨r, hr, _, hdr⟩ := snapshotRows_mem_exists curr tf cfg.slots 0 pm j h heff
    refine ⟨r, hr, c - tf, ?_, htol⟩
    rw [hdr, show (0 : Nat) + j = j by omega, hc]

/-- A one-slot configuration for the zero-drift scenario. -/
def cfg1 : Config := ⟨50, 30000, 0, "cut", 2, [slotA]⟩

/-- C7 counterexample: with tolerance 0 and a perfectly aligned slot the
drift is non-null (some 0) and yet no resync is triggered, refuting the
claim's "a resync is triggered on any non-null drift". -/
theorem autosync_zero_drift_no_trigger_cex :
    ((snapshotRows (fun _ => some 100) 100 cfg1.slots 0 (fun _ => none)).1.map Row.drift
       = [some 0]) ∧
    needResync (snapshotRows (fun _ => some 100) 100 cfg1.slots 0 (fun _ => none)).1 0
       = false := by
  decide

/-- The indices that survive the effectiveness filter the source repeats in
every per-slot loop, for the slot list placed at base index i. -/
def effIdx : List Slot → Nat → List Nat
  | [], _ => []
  | s :: rest, i => if effS s then i :: effIdx rest (i + 1) else effIdx rest (i + 1)

theorem effIdx_not_eff (s : Slot) (rest : List Slot) (i : Nat) (h : ¬ effS s) :
    effIdx (s :: rest) i = effIdx rest (i + 1) := by
  simp only [effIdx, if_neg h]

theorem effIdx_eff (s : Slot) (rest : List Slot) (i : Nat) (h : effS s) :
    effIdx (s :: rest) i = i :: effIdx rest (i + 1) := by
  simp only [effIdx, if_pos h]

theorem preloadItems_map_fst :
    ∀ (l : List Slot) (i : Nat) (pm : PairMap),
      (preloadItems l i pm).1.map Prod.fst = effIdx l i := by
  intro l
  induction l with
  | nil => intro i pm; rfl
  | cons s rest ih =>
    intro i pm
    by_cases h1 : s.enabled = JsVal.jbool false
    · rw [effIdx_not_eff s rest i (fun he => he.1 h1)]
      simp only [preloadItems, if_pos h1]
      exact ih (i + 1) pm
    · by_cases h2 : s.host = "" ∨ s.clip = ""
      · rw [effIdx_not_eff s rest i (fun he => by
          rcases h2 with h2 | h2
          · exact he.2.1 h2
          · exact he.2.2 h2)]
        simp only [preloadItems, if_neg h1, if_pos h2]
        exact ih (i + 1) pm
      · rw [effIdx_eff s rest i (effS_of_guards s h1 h2)]
        simp only [preloadItems, if_neg h1, if_neg h2, List.map_cons]
        rw [ih (i + 1) (getPair s i pm).2]

theorem startItems_map_fst (fps : ℚ) :
    ∀ (l : List Slot) (i : Nat) (pm : PairMap),
      (startItems fps l i pm).1.map Prod.fst = effIdx l i := by
  intro l
  induction l with
  | nil => intro i pm; rfl
  | cons s rest ih =>
    intro i pm
    by_cases h1 : s.enabled = JsVal.jbool false
    · rw [effIdx_not_eff s rest i (fun he => he.1 h1)]
      simp only [startItems, if_pos h1]
      exact ih (i + 1) pm
    · by_cases h2 : s.host = "" ∨ s.clip = ""
      · rw [effIdx_not_eff s rest i (fun he => by
          rcases h2 with h2 | h2
          · exact he.2.1 h2
          · exact he.2.2 h2)]
        simp only [startItems, if_neg h1, if_pos h2]
        exact ih (i + 1) pm
      · rw [effIdx_eff s rest i (effS_of_guards s h1 h2)]
        simp only [startItems, if_neg h1, if_neg h2, List.map_cons]
        rw [ih (i + 1) (getPair s i pm).2]

theorem pauseItems_map_fst :
    ∀ (l : List Slot) (i : Nat) (pm : PairMap),
      (pauseItems l i pm).1.map Prod.fst = effIdx l i := by
  intro l
  induction l with
  | nil => intro i pm; rfl
  | cons s rest ih =>
    intro i pm
    by_cases h1 : s.enabled = JsVal.jbool false
    · rw [effIdx_not_eff s rest i (fun he => he.1 h1)]
      simp only [pauseItems, if_pos h1]
      exact ih (i + 1) pm
    · by_cases h2 : s.host = "" ∨ s.clip = ""
      · rw [effIdx_not_eff s rest i (fun he => by
          rcases h2 with h2 | h2
          · exact he.2.1 h2
          · exact he.2.2 h2)]
        simp only [pauseItems, if_neg h1, if_pos h2]
        exact ih (i + 1) pm
      · rw [effIdx_eff s rest i (effS_of_guards s h1 h2)]
        simp only [pauseItems, if_neg h1, if_neg h2, List.map_cons]
        rw [ih (i + 1) (getPair s i pm).2]

theorem resyncArm_map_fst (tf : ℚ) :
    ∀ (l : List Slot) (i : Nat) (pm : PairMap),
      (resyncArm tf (fun _ => true) l i pm).2.1.map Prod.fst = effIdx l i := by
  intro l
  induction l with
  | nil => intro i pm; rfl
  | cons s rest ih =>
    intro i pm
    by_cases h1 : s.enabled = JsVal.jbool false
    · rw [effIdx_not_eff s rest i (fun he => he.1 h1)]
      simp only [resyncArm, if_pos h1]
      exact ih (i + 1) pm
    · by_cases h2 : s.host = "" ∨ s.clip = ""
      · rw [effIdx_not_eff s rest i (fun he => by
          rcases h2 with h2 | h2
          · exact he.2.1 h2
          · exact he.2.2 h2)]
        simp only [resyncArm, if_neg h1, if_pos h2]
        exact ih (i + 1) pm
      · rw [effIdx_eff s rest i (effS_of_guards s h1 h2)]
        simp only [resyncArm, if_neg h1, if_neg h2, if_true, List.map_cons]
        rw [ih (i + 1) (getPair s i pm).2]

theorem snapshotRows_map_index (curr : Nat → Option Int) (tf : Int) :
    ∀ (l : List Slot) (i : Nat) (pm : PairMap),
      (snapshotRows curr tf l i pm).1.map Row.index = effIdx l i := by
  intro l
  induction l with
  | nil => intro i pm; rfl
  | cons s rest ih =>
    intro i pm
    by_cases h1 : s.enabled = JsVal.jbool false
    · rw [effIdx_not_eff s rest i (fun he => he.1 h1)]
      simp only [snapshotRows, if_pos h1]
      exact ih (i + 1) pm
    · by_cases h2 : s.host = "" ∨ s.clip = ""
      · rw [effIdx_not_eff s rest i (fun he => by
          rcases h2 with h2 | h2
          · exact he.2.1 h2
          · exact he.2.2 h2)]
        simp only [snapshotRows, if_neg h1, if_pos h2]
        exact ih (i + 1) pm
      · rw [effIdx_eff s rest i (effS_of_guards s h1 h2)]
        simp only [snapshotRows, if_neg h1, if_neg h2, List.map_cons]
        rw [ih (i + 1) (getPair s i pm).2]

theorem effIdx_mem :
    ∀ (l : List Slot) (i : Nat) (k : Nat),
      k ∈ effIdx l i ↔ ∃ j, ∃ h : j < l.length, k = i + j ∧ effS (l.get ⟨j, h⟩) := by
  intro l
  induction l with
  | nil =>
    intro i k
    simp [effIdx]
  | cons s rest ih =>
    intro i k
    by_cases he : effS s
    · rw [effIdx_eff s rest i he]
      simp only [List.mem_cons]
      constructor
      · rintro (rfl | hk)
        · exact ⟨0, by simp, by omega, by simpa using he⟩
        · obtain ⟨j, h, rfl, hj⟩ := (ih (i + 1) k).mp hk
          exact ⟨j + 1, by simpa using Nat.succ_lt_succ h, by omega, by simpa using hj⟩
      · rintro ⟨j, h, rfl, hj⟩
        match j with
        | 0 => left; omega
        | j + 1 =>
          right
          refine (ih (i + 1) (i + (j + 1))).mpr ⟨j, by simpa using Nat.lt_of_succ_lt_succ h,
            by omega, by simpa using hj⟩
    · rw [effIdx_not_eff s rest i he]
      rw [ih (i + 1) k]
      constructor
      · rintro ⟨j, h, rfl, hj⟩
        exact ⟨j + 1, by simpa using Nat.succ_lt_succ h, by omega, by simpa using hj⟩
      · rintro ⟨j, h, rfl, hj⟩
        match j with
        | 0 => exact absurd (by simpa using hj) he
        | j + 1 =>
          exact ⟨j, by simpa using Nat.lt_of_succ_lt_succ h, by omega, by simpa using hj⟩

/-- C9: the only thing that excludes a slot from the four sync operations and
from the status snapshot is a strict-equality enabled === false, or an empty
host or clip; an absent enabled field, true, any number (including 0) or any
string leaves the slot effective. -/
theorem only_enabled_false_excludes (cfg : Config) (pm : PairMap) (tf : ℚ)
    (curr : Nat → Option Int) (tfi : Int) :
    ((preloadItems cfg.slots 0 pm).1.map Prod.fst = effIdx cfg.slots 0) ∧
    ((startItems cfg.fps cfg.slots 0 pm).1.map Prod.fst = effIdx cfg.slots 0) ∧
    ((pauseItems cfg.slots 0 pm).1.map Prod.fst = effIdx cfg.slots 0) ∧
    ((resyncArm tf (fun _ => true) cfg.slots 0 pm).2.1.map Prod.fst = effIdx cfg.slots 0) ∧
    ((snapshotRows curr tfi cfg.slots 0 pm).1.map Row.index = effIdx cfg.slots 0) ∧
    (∀ k, k ∈ effIdx cfg.slots 0 ↔
       ∃ h : k < cfg.slots.length,
         (cfg.slots.get ⟨k, h⟩).enabled ≠ JsVal.jbool false ∧
         (cfg.slots.get ⟨k, h⟩).host ≠ "" ∧ (cfg.slots.get ⟨k, h⟩).clip ≠ "") := by
  refine ⟨preloadItems_map_fst cfg.slots 0 pm, startItems_map_fst cfg.fps cfg.slots 0 pm,
    pauseItems_map_fst cfg.slots 0 pm, resyncArm_map_fst tf cfg.slots 0 pm,
    snapshotRows_map_index curr tfi cfg.slots 0 pm, ?_⟩
  intro k
  rw [effIdx_mem cfg.slots 0 k]
  constructor
  · rintro ⟨j, h, rfl, hj⟩
    exact ⟨by simpa using h, by simpa using hj⟩
  · rintro ⟨h, hj⟩
    exact ⟨k, h, by omega, hj⟩

theorem resyncArm_batch_mem (tf : ℚ) :
    ∀ (l : List Slot) (i : Nat) (pm : PairMap), AlignedAt pm l i →
      ∀ j, ∀ h : j < l.length, effS (l.get ⟨j, h⟩) →
        ∃ p, pm (i + j) = some p ∧
          (i + j, loadAndPauseCmds (l.get ⟨j, h⟩).channel p.standby (l.get ⟨j, h⟩).clip tf)
            ∈ (resyncArm tf (fun _ => true) l i pm).2.1 := by
  intro l
  induction l with
  | nil => intro i pm _ j h; exact absurd h (by simp)
  | cons s rest ih =>
    intro i pm hal j h he
    obtain ⟨⟨p0, hp0, hb0⟩, htail⟩ := hal
    by_cases h1 : s.enabled = JsVal.jbool false
    · match j with
      | 0 => exact absurd (by simpa using he) (fun heS : effS s => heS.1 h1)
      | j + 1 =>
        obtain ⟨p, hp, hm⟩ := ih (i + 1) pm htail j
          (by simpa using Nat.lt_of_succ_lt_succ h) (by simpa using he)
        refine ⟨p, by rw [show i + (j + 1) = i + 1 + j by omega]; exact hp, ?_⟩
        simp only [resyncArm, if_pos h1]
        rw [show i + (j + 1) = i + 1 + j by omega]
        convert hm using 3
    · by_cases h2 : s.host = "" ∨ s.clip = ""
      · match j with
        | 0 =>
          have heS : effS s := by simpa using he
          rcases h2 with h2 | h2
          · exact absurd h2 heS.2.1
          · exact absurd h2 heS.2.2
        | j + 1 =>
          obtain ⟨p, hp, hm⟩ := ih (i + 1) pm htail j
            (by simpa using Nat.lt_of_succ_lt_succ h) (by simpa using he)
          refine ⟨p, by rw [show i + (j + 1) = i + 1 + j by omega]; exact hp, ?_⟩
          simp only [resyncArm, if_neg h1, if_pos h2]
          rw [show i + (j + 1) = i + 1 + j by omega]
          convert hm using 3
      · simp only [resyncArm, if_neg h1, if_neg h2, getPair_aligned s i pm p0 hp0 hb0, if_true]
        match j with
        | 0 =>
          refine ⟨p0, by rw [show i + 0 = i by omega]; exact hp0, ?_⟩
          rw [show i + 0 = i by omega]
          exact List.mem_cons_self _ _
        | j + 1 =>
          obtain ⟨p, hp, hm⟩ := ih (i + 1) pm htail j
            (by simpa using Nat.lt_of_succ_lt_succ h) (by simpa using he)
          refine ⟨p, by rw [show i + (j + 1) = i + 1 + j by omega]; exact hp, ?_⟩
          rw [show i + (j + 1) = i + 1 + j by omega]
          refine List.mem_cons_of_mem _ ?_
          convert hm using 3

/-- C10: a finite frame supplied to POST /api/resync is used as resyncAll's
target frame verbatim, and each effective slot's arm batch carries it
unchanged in the LOADBG SEEK argument: no clamping, rounding or modulo. -/
theorem api_resync_frame_verbatim (cfg : Config) (pm : PairMap) (t0 : Option ℚ)
    (now q : ℚ) (hal : AlignedAt pm cfg.slots 0) :
    apiResyncTf (some (JsNum.fin q)) t0 now cfg.fps cfg.frames = q ∧
    (∀ j, ∀ h : j < cfg.slots.length, effS (cfg.slots.get ⟨j, h⟩) →
       ∃ p, pm j = some p ∧
         (j, loadAndPauseCmds (cfg.slots.get ⟨j, h⟩).channel p.standby
             (cfg.slots.get ⟨j, h⟩).clip
             (apiResyncTf (some (JsNum.fin q)) t0 now cfg.fps cfg.frames))
           ∈ (resyncAll cfg pm cfg.resyncMode
               (apiResyncTf (some (JsNum.fin q)) t0 now cfg.fps cfg.frames)
               (fun _ => true) (fun _ => true) (fun _ => true)).2.1) := by
  refine ⟨rfl, ?_⟩
  intro j h he
  obtain ⟨p, hp, hm⟩ := resyncArm_batch_mem q cfg.slots 0 pm hal j h he
  refine ⟨p, by simpa using hp, ?_⟩
  have herr : (resyncArm q (fun _ => true) cfg.slots 0 pm).2.2 = none :=
    resyncArm_err_none q (fun _ => true) cfg.slots 0 pm (fun _ _ _ => rfl)
  have hres : (resyncAll cfg pm cfg.resyncMode q (fun _ => true) (fun _ => true)
        (fun _ => true)).2.1
      = (resyncArm q (fun _ => true) cfg.slots 0 pm).2.1
        ++ (resyncTrans cfg.resyncMode cfg.fadeFrames (fun _ => true) (fun _ => true)
             cfg.slots 0 (resyncArm q (fun _ => true) cfg.slots 0 pm).1).2.1 := by
    simp only [resyncAll, herr]
  show (j, loadAndPauseCmds (cfg.slots.get ⟨j, h⟩).channel p.standby
      (cfg.slots.get ⟨j, h⟩).clip q)
    ∈ (resyncAll cfg pm cfg.resyncMode q (fun _ => true) (fun _ => true)
        (fun _ => true)).2.1
  rw [hres]
  exact List.mem_append_left _ (by simpa using hm)

/-- C10 witness: a negative, non-integer frame (-7/2) reaches the arm batch
of slot 0 unchanged. -/
theorem api_resync_frame_verbatim_witness :
    effS (cfg3.slots.get ⟨0, by decide⟩) ∧
    apiResyncTf (some (JsNum.fin (-(7 / 2)))) none 0 cfg3.fps cfg3.frames = -(7 / 2) ∧
    (∃ p, pm3 0 = some p ∧
      (0, loadAndPauseCmds (cfg3.slots.get ⟨0, by decide⟩).channel p.standby
          (cfg3.slots.get ⟨0, by decide⟩).clip
          (apiResyncTf (some (JsNum.fin (-(7 / 2)))) none 0 cfg3.fps cfg3.frames))
        ∈ (resyncAll cfg3 pm3 cfg3.resyncMode
            (apiResyncTf (some (JsNum.fin (-(7 / 2)))) none 0 cfg3.fps cfg3.frames)
            (fun _ => true) (fun _ => true) (fun _ => true)).2.1) :=
  ⟨by decide,
   (api_resync_frame_verbatim cfg3 pm3 none 0 (-(7 / 2)) pm3_aligned).1,
   (api_resync_frame_verbatim cfg3 pm3 none 0 (-(7 / 2)) pm3_aligned).2 0 (by decide)
     (by decide)⟩
